import Mathlib

/-!
# Verification of the CSV bulk-import pipeline of the `stock` inventory server

This file gives a shallow embedding, in Lean 4, of the CSV import pipeline
implemented in the server's CSV routes module (tokenizer, row classifier,
preview cache, commit protocol, and the single-flight job queue), and proves
the specified properties about it.

Modelling conventions:
* JavaScript strings are modelled as `List Char` (`Str`); the helper `S`
  converts a Lean string literal to this representation.
* JavaScript numbers are modelled by `JsNum`: either the NaN sentinel or a
  rational value.  The ECMAScript `Number(string)` conversion is modelled on
  its decimal fragment (`jsStringToNumber`).
* `String.prototype.trim`, `toUpperCase` and `toLowerCase` are modelled on
  the ASCII fragment, which covers every catalog code and message involved.
* JavaScript objects used as string records (`Record<string, string>`) are
  modelled as association lists with overwrite-on-assignment semantics.
* The asynchronous `setTimeout`-driven job processor is modelled as a small
  transition system: scheduled callbacks become explicit tasks in the state
  and a step relation runs an arbitrary pending task (a sound
  over-approximation of the actual timer ordering).
-/

/-- JavaScript strings, modelled as lists of characters. -/
abbrev Str : Type := List Char

/-- Coerce a Lean string literal into the `Str` model. -/
def S (s : String) : Str := s.data

/-- Whitespace characters removed by `String.prototype.trim`
(ASCII fragment of the ECMAScript WhiteSpace/LineTerminator classes). -/
def isJsWs (c : Char) : Bool :=
  c = ' ' || c = '\t' || c = '\n' || c = '\r' || c = '\x0b' || c = '\x0c'

/-- `String.prototype.trim`: drop leading and trailing whitespace. -/
def trimL (l : Str) : Str :=
  ((l.dropWhile isJsWs).reverse.dropWhile isJsWs).reverse

/-- `String.prototype.toUpperCase`, ASCII fragment. -/
def toUpperL (l : Str) : Str := l.map Char.toUpper

/-- `String.prototype.toLowerCase`, ASCII fragment. -/
def toLowerL (l : Str) : Str := l.map Char.toLower

/-! ## Tokenizer (`parseCsv` in the source)

The source performs one left-to-right scan over the characters, keeping an
`inQuotes` flag, the current cell accumulator and the current row:

* `"` while inside quotes and followed by another `"` emits one literal `"`
  and consumes both characters; any other `"` toggles `inQuotes`;
* `,` outside quotes ends the current cell;
* `\n` or `\r` outside quotes ends the current row, a `\r\n` pair being
  consumed as a single terminator;
* any other character is appended to the accumulator;
* at end of input a partially built row or non-empty accumulator is flushed.

After the scan every cell is trimmed and rows whose cells are all empty are
discarded. -/

/-- The character scan of `parseCsv` (cases ordered exactly as the source's
`if` chain: quote handling first, then unquoted comma, then unquoted
newlines, then the default append). -/
def scanCsv : Str → Bool → Str → List Str → List (List Str) → List (List Str)
  | [], _, current, currentRow, rows =>
    if 0 < currentRow.length ∨ current ≠ [] then rows ++ [currentRow ++ [current]] else rows
  | '"' :: '"' :: rest, true, current, currentRow, rows =>
    scanCsv rest true (current ++ ['"']) currentRow rows
  | '"' :: rest, inQuotes, current, currentRow, rows =>
    scanCsv rest (!inQuotes) current currentRow rows
  | ',' :: rest, false, current, currentRow, rows =>
    scanCsv rest false [] (currentRow ++ [current]) rows
  | '\r' :: '\n' :: rest, false, current, currentRow, rows =>
    scanCsv rest false [] [] (rows ++ [currentRow ++ [current]])
  | '\n' :: rest, false, current, currentRow, rows =>
    scanCsv rest false [] [] (rows ++ [currentRow ++ [current]])
  | '\r' :: rest, false, current, currentRow, rows =>
    scanCsv rest false [] [] (rows ++ [currentRow ++ [current]])
  | c :: rest, inQuotes, current, currentRow, rows =>
    scanCsv rest inQuotes (current ++ [c]) currentRow rows

/-- A row survives `parseCsv`'s post-filter iff it is non-empty and some
cell is non-empty. -/
def keepRow (row : List Str) : Bool :=
  decide (0 < row.length) && row.any (fun cell => decide (0 < cell.length))

/-- `parseCsv`: scan, then trim every cell and discard all-empty rows. -/
def parseCsv (text : Str) : List (List Str) :=
  ((scanCsv text false [] [] []).map (fun row => row.map trimL)).filter keepRow

/-- `value.replace(/"/g, '""')`: double every quote. -/
def dubQuotes : Str → Str
  | [] => []
  | c :: rest => (if c = '"' then ['"', '"'] else [c]) ++ dubQuotes rest

/-- The test `/[",\n\r]/.test(value)` of `escapeCsv`. -/
def needsQuoting (v : Str) : Bool :=
  v.any (fun c => c = '"' || c = ',' || c = '\n' || c = '\r')

/-- `escapeCsv`: quote a cell containing a quote, comma or line break,
doubling interior quotes; other cells pass through. -/
def escapeCsv (v : Str) : Str :=
  if needsQuoting v then '"' :: (dubQuotes v ++ ['"']) else v

/-- `row.map(escapeCsv).join(',')`. -/
def joinCells : List Str → Str
  | [] => []
  | [c] => escapeCsv c
  | c :: cs => escapeCsv c ++ ',' :: joinCells cs

/-- `lines.join('\n')`. -/
def joinLines : List Str → Str
  | [] => []
  | [r] => r
  | r :: rs => r ++ '\n' :: joinLines rs

/-- Re-serialize a table: escape every cell, join cells with commas and rows
with newlines (the body part of the source's `stringifyCsv`). -/
def stringifyTable (table : List (List Str)) : Str :=
  joinLines (table.map joinCells)

/-- `stringifyCsv(headers, rows)` from the source: the escaped header line,
then the escaped body if present. -/
def stringifyCsv (headers : List Str) (rows : List (List Str)) : Str :=
  let headerLine := joinCells headers
  let body := joinLines (rows.map joinCells)
  if body ≠ [] then headerLine ++ '\n' :: body else headerLine

example : parseCsv (S "a,b\nc,d") = [[S "a", S "b"], [S "c", S "d"]] := by decide
example : parseCsv (S "a, b \r\n\"c,1\",\"d\"\"e\"") =
    [[S "a", S "b"], [S "c,1", S "d\"e"]] := by decide
example : parseCsv (S "a\n\n ,\nb") = [[S "a"], [S "b"]] := by decide
example : escapeCsv (S "a\"b") = S "\"a\"\"b\"" := by decide
example : parseCsv (stringifyTable [[S "a,b", S "c\nd"], [S "e\"f", S ""]]) =
    [[S "a,b", S "c\nd"], [S "e\"f", S ""]] := by decide

/-! ### Step equations for the scanner -/

theorem scanCsv_nil (inQ : Bool) (cur : Str) (curRow : List Str) (rows : List (List Str)) :
    scanCsv [] inQ cur curRow rows =
      if 0 < curRow.length ∨ cur ≠ [] then rows ++ [curRow ++ [cur]] else rows := rfl

theorem scanCsv_dquote (rest : Str) (cur : Str) (curRow : List Str) (rows : List (List Str)) :
    scanCsv ('"' :: '"' :: rest) true cur curRow rows =
      scanCsv rest true (cur ++ ['"']) curRow rows := rfl

theorem scanCsv_comma (rest : Str) (cur : Str) (curRow : List Str) (rows : List (List Str)) :
    scanCsv (',' :: rest) false cur curRow rows =
      scanCsv rest false [] (curRow ++ [cur]) rows := rfl

theorem scanCsv_crlf (rest : Str) (cur : Str) (curRow : List Str) (rows : List (List Str)) :
    scanCsv ('\r' :: '\n' :: rest) false cur curRow rows =
      scanCsv rest false [] [] (rows ++ [curRow ++ [cur]]) := rfl

theorem scanCsv_lf (rest : Str) (cur : Str) (curRow : List Str) (rows : List (List Str)) :
    scanCsv ('\n' :: rest) false cur curRow rows =
      scanCsv rest false [] [] (rows ++ [curRow ++ [cur]]) := rfl

theorem scanCsv_quote_open (rest : Str) (cur : Str) (curRow : List Str)
    (rows : List (List Str)) :
    scanCsv ('"' :: rest) false cur curRow rows = scanCsv rest true cur curRow rows := by
  rw [scanCsv.eq_def]
  split <;> first
    | rfl
    | (simp_all; done)
    | (cases ‹_ :: _ = _ :: _›; first | rfl | simp_all)

theorem scanCsv_quote_close (rest : Str) (cur : Str) (curRow : List Str)
    (rows : List (List Str)) (h : rest.head? ≠ some '"') :
    scanCsv ('"' :: rest) true cur curRow rows = scanCsv rest false cur curRow rows := by
  rw [scanCsv.eq_def]
  split <;> first
    | rfl
    | (simp_all; done)
    | (cases ‹_ :: _ = _ :: _›; first | rfl | simp_all)

theorem scanCsv_cr (rest : Str) (cur : Str) (curRow : List Str) (rows : List (List Str))
    (h : rest.head? ≠ some '\n') :
    scanCsv ('\r' :: rest) false cur curRow rows =
      scanCsv rest false [] [] (rows ++ [curRow ++ [cur]]) := by
  rw [scanCsv.eq_def]
  split <;> first
    | rfl
    | (simp_all; done)
    | (cases ‹_ :: _ = _ :: _›; first | rfl | simp_all)

theorem scanCsv_other (c : Char) (rest : Str) (inQ : Bool) (cur : Str) (curRow : List Str)
    (rows : List (List Str)) (hq : c ≠ '"') (hc : c = ',' → inQ = true)
    (hn : c = '\n' → inQ = true) (hr : c = '\r' → inQ = true) :
    scanCsv (c :: rest) inQ cur curRow rows = scanCsv rest inQ (cur ++ [c]) curRow rows := by
  rw [scanCsv.eq_def]
  split <;> first
    | rfl
    | (simp_all; done)
    | (cases ‹_ :: _ = _ :: _›; first | rfl | simp_all)

/-! ### Scanning an escaped cell -/

theorem scanCsv_unquoted (cell : Str) (rest : Str) (cur : Str) (curRow : List Str)
    (rows : List (List Str))
    (h : ∀ c ∈ cell, ¬(c = '"' ∨ c = ',' ∨ c = '\n' ∨ c = '\r')) :
    scanCsv (cell ++ rest) false cur curRow rows = scanCsv rest false (cur ++ cell) curRow rows := by
  induction cell generalizing cur with
  | nil => simp
  | cons c cs ih =>
    have hc := h c (by simp)
    push_neg at hc
    rw [List.cons_append, scanCsv_other c _ false _ _ _ hc.1
      (fun hx => absurd hx hc.2.1) (fun hx => absurd hx hc.2.2.1)
      (fun hx => absurd hx hc.2.2.2)]
    rw [ih (cur ++ [c]) (fun x hx => h x (by simp [hx]))]
    simp

theorem scanCsv_quoted (cell : Str) (rest : Str) (cur : Str) (curRow : List Str)
    (rows : List (List Str)) (h : rest.head? ≠ some '"') :
    scanCsv (dubQuotes cell ++ '"' :: rest) true cur curRow rows =
      scanCsv rest false (cur ++ cell) curRow rows := by
  induction cell generalizing cur with
  | nil => simpa [dubQuotes] using scanCsv_quote_close rest cur curRow rows h
  | cons c cs ih =>
    by_cases hc : c = '"'
    · subst hc
      rw [show dubQuotes ('"' :: cs) = '"' :: '"' :: dubQuotes cs from rfl]
      rw [List.cons_append, List.cons_append, scanCsv_dquote, ih (cur ++ ['"'])]
      simp
    · rw [show dubQuotes (c :: cs) = c :: dubQuotes cs by simp [dubQuotes, hc]]
      rw [List.cons_append,
        scanCsv_other c _ true _ _ _ hc (fun _ => rfl) (fun _ => rfl) (fun _ => rfl),
        ih (cur ++ [c])]
      simp

theorem scanCsv_escape (cell : Str) (rest : Str) (cur : Str) (curRow : List Str)
    (rows : List (List Str)) (h : rest.head? ≠ some '"') :
    scanCsv (escapeCsv cell ++ rest) false cur curRow rows =
      scanCsv rest false (cur ++ cell) curRow rows := by
  unfold escapeCsv
  by_cases hq : needsQuoting cell
  · rw [if_pos hq]
    have harr : ('"' :: (dubQuotes cell ++ ['"'])) ++ rest
        = '"' :: (dubQuotes cell ++ '"' :: rest) := by simp
    rw [harr, scanCsv_quote_open, scanCsv_quoted cell rest cur curRow rows h]
  · rw [if_neg hq]
    apply scanCsv_unquoted
    intro c hcmem hcontra
    apply hq
    simp only [needsQuoting, List.any_eq_true]
    refine ⟨c, hcmem, ?_⟩
    simp only [Bool.or_eq_true, decide_eq_true_eq]
    tauto

/-! ### Scanning a serialized row and table -/

theorem scanCsv_cells_eof (cs : List Str) (c : Str) (cur : Str) (curRow : List Str)
    (rows : List (List Str)) (hne : 0 < curRow.length ∨ cur ++ c ≠ [] ∨ cs ≠ []) :
    scanCsv (joinCells (c :: cs)) false cur curRow rows =
      rows ++ [curRow ++ (cur ++ c) :: cs] := by
  induction cs generalizing c cur curRow with
  | nil =>
    have h0 : joinCells [c] = escapeCsv c ++ [] := by simp [joinCells]
    rw [h0, scanCsv_escape c [] cur curRow rows (by simp), scanCsv_nil]
    rw [if_pos (by simpa using hne)]
  | cons c2 cs' ih =>
    have h0 : joinCells (c :: c2 :: cs') = escapeCsv c ++ ',' :: joinCells (c2 :: cs') := rfl
    rw [h0, scanCsv_escape c _ cur curRow rows (by simp), scanCsv_comma,
      ih c2 [] (curRow ++ [cur ++ c]) (Or.inl (by simp))]
    simp

theorem scanCsv_cells_nl (cs : List Str) (c : Str) (cur : Str) (curRow : List Str)
    (rows : List (List Str)) (rest : Str) :
    scanCsv (joinCells (c :: cs) ++ '\n' :: rest) false cur curRow rows =
      scanCsv rest false [] [] (rows ++ [curRow ++ (cur ++ c) :: cs]) := by
  induction cs generalizing c cur curRow with
  | nil =>
    have h0 : joinCells [c] ++ '\n' :: rest = escapeCsv c ++ '\n' :: rest := by simp [joinCells]
    rw [h0, scanCsv_escape c _ cur curRow rows (by simp), scanCsv_lf]
  | cons c2 cs' ih =>
    have h0 : joinCells (c :: c2 :: cs') ++ '\n' :: rest
        = escapeCsv c ++ ',' :: (joinCells (c2 :: cs') ++ '\n' :: rest) := by
      simp [joinCells]
    rw [h0, scanCsv_escape c _ cur curRow rows (by simp), scanCsv_comma,
      ih c2 [] (curRow ++ [cur ++ c])]
    simp

theorem scanCsv_table (tbl : List (List Str)) (rows : List (List Str))
    (h : ∀ row ∈ tbl, ∃ cell ∈ row, cell ≠ []) :
    scanCsv (joinLines (tbl.map joinCells)) false [] [] rows = rows ++ tbl := by
  induction tbl generalizing rows with
  | nil => simp [joinLines, scanCsv_nil]
  | cons r rs ih =>
    obtain ⟨cell, hc1, hc2⟩ := h r (by simp)
    obtain ⟨c, cs, rfl⟩ : ∃ c cs, r = c :: cs := by
      cases r with
      | nil => simp at hc1
      | cons c cs => exact ⟨c, cs, rfl⟩
    cases rs with
    | nil =>
      have h0 : joinLines ([c :: cs].map joinCells) = joinCells (c :: cs) := rfl
      rw [h0, scanCsv_cells_eof cs c [] [] rows ?_]
      · simp
      · rcases List.mem_cons.mp hc1 with h1 | h1
        · subst h1
          exact Or.inr (Or.inl (by simpa using hc2))
        · exact Or.inr (Or.inr (List.ne_nil_of_mem h1))
    | cons r2 rs' =>
      have h0 : joinLines (((c :: cs) :: r2 :: rs').map joinCells)
          = joinCells (c :: cs) ++ '\n' :: joinLines ((r2 :: rs').map joinCells) := rfl
      rw [h0, scanCsv_cells_nl cs c [] [] rows _]
      simp only [List.nil_append]
      rw [ih (rows ++ [c :: cs]) (fun row hr => h row (by simp [hr]))]
      simp

/-! ### Trimming is idempotent, and `parseCsv` output is clean -/

theorem dropWhile_head?_false (p : Char → Bool) (l : Str) (c : Char)
    (h : (l.dropWhile p).head? = some c) : p c = false := by
  induction l with
  | nil => simp at h
  | cons a as ih =>
    by_cases ha : p a
    · rw [List.dropWhile_cons_of_pos ha] at h
      exact ih h
    · rw [List.dropWhile_cons_of_neg ha] at h
      simp only [List.head?_cons, Option.some.injEq] at h
      subst h
      simpa using ha

theorem dropWhile_eq_self_of_head? (p : Char → Bool) (l : Str)
    (h : ∀ c, l.head? = some c → p c = false) : l.dropWhile p = l := by
  cases l with
  | nil => rfl
  | cons a as => rw [List.dropWhile_cons_of_neg (by simpa using h a rfl)]

theorem dropWhile_getLast? (p : Char → Bool) (l : Str) (h : l.dropWhile p ≠ []) :
    (l.dropWhile p).getLast? = l.getLast? := by
  induction l with
  | nil => simp at h
  | cons a as ih =>
    by_cases ha : p a
    · rw [List.dropWhile_cons_of_pos ha] at h ⊢
      rw [ih h]
      have : as ≠ [] := by
        intro hnil
        rw [hnil] at h
        simp at h
      cases as with
      | nil => simp at this
      | cons b bs => rw [List.getLast?_cons_cons]
    · rw [List.dropWhile_cons_of_neg ha]

theorem trimL_idem (l : Str) : trimL (trimL l) = trimL l := by
  unfold trimL
  set A := l.dropWhile isJsWs with hA
  set B := A.reverse.dropWhile isJsWs with hB
  have hBhead : ∀ c, B.head? = some c → isJsWs c = false :=
    fun c hc => dropWhile_head?_false isJsWs A.reverse c hc
  have hstep1 : B.reverse.dropWhile isJsWs = B.reverse := by
    apply dropWhile_eq_self_of_head?
    intro c hc
    rcases hBne : B with _ | ⟨b, bs⟩
    · rw [hBne] at hc; simp at hc
    · rw [List.head?_reverse] at hc
      have hgl : B.getLast? = A.reverse.getLast? := by
        rw [hB]
        exact dropWhile_getLast? isJsWs A.reverse (by rw [← hB, hBne]; simp)
      rw [hBne] at hgl
      rw [hBne, hgl, List.getLast?_reverse] at hc
      exact dropWhile_head?_false isJsWs l c (by rw [← hA]; exact hc)
  rw [hstep1, List.reverse_reverse, dropWhile_eq_self_of_head? isJsWs B hBhead]

theorem map_eq_self_of {α : Type} (l : List α) (f : α → α) (h : ∀ x ∈ l, f x = x) :
    l.map f = l := by
  induction l with
  | nil => rfl
  | cons a as ih => simp [h a (by simp), ih (fun x hx => h x (by simp [hx]))]

theorem keepRow_iff (row : List Str) :
    keepRow row = true ↔ 0 < row.length ∧ ∃ cell ∈ row, cell ≠ [] := by
  simp only [keepRow, Bool.and_eq_true, decide_eq_true_eq, List.any_eq_true]
  constructor
  · rintro ⟨h1, c, hc, hlen⟩
    exact ⟨h1, c, hc, by simpa [List.length_pos_iff_ne_nil] using hlen⟩
  · rintro ⟨h1, c, hc, hne⟩
    exact ⟨h1, c, hc, by simpa [List.length_pos_iff_ne_nil] using hne⟩

theorem parseCsv_of_clean (tbl : List (List Str))
    (hcell : ∀ row ∈ tbl, ∀ cell ∈ row, trimL cell = cell)
    (hkeep : ∀ row ∈ tbl, keepRow row = true) :
    parseCsv (stringifyTable tbl) = tbl := by
  unfold parseCsv stringifyTable
  rw [scanCsv_table tbl []
    (fun row hr => ((keepRow_iff row).mp (hkeep row hr)).2)]
  rw [List.nil_append,
    map_eq_self_of tbl _ (fun row hr => map_eq_self_of row trimL (hcell row hr)),
    List.filter_eq_self.mpr (fun row hr => hkeep row hr)]

theorem parseCsv_mem_clean (text : Str) (row : List Str) (h : row ∈ parseCsv text) :
    (∀ cell ∈ row, trimL cell = cell) ∧ keepRow row = true := by
  unfold parseCsv at h
  have h2 := List.mem_filter.mp h
  refine ⟨?_, h2.2⟩
  obtain ⟨row₀, _, rfl⟩ := List.mem_map.mp h2.1
  intro cell hc
  obtain ⟨c₀, _, rfl⟩ := List.mem_map.mp hc
  exact trimL_idem c₀

/-- C3: for every table produced by the tokenizer (all cells trimmed, no
all-empty rows), escaping each cell with `escapeCsv`, rejoining cells with
commas and rows with newlines, and tokenizing again reproduces the table
with identical cell values — including cells containing commas, newlines
and literal double quotes. -/
theorem csv_roundtrip (text : Str) :
    parseCsv (stringifyTable (parseCsv text)) = parseCsv text :=
  parseCsv_of_clean (parseCsv text)
    (fun row hr => (parseCsv_mem_clean text row hr).1)
    (fun row hr => (parseCsv_mem_clean text row hr).2)

/-- C7: the tokenizer's single scan: an unescaped `"` toggles the quoting
flag, except that a doubled `""` inside quotes emits one literal `"` without
toggling; `\r\n` outside quotes is consumed as a single row terminator; at
end of input a non-empty accumulator or partially built row is flushed as a
final row; and after the scan every cell of the result is trimmed and every
surviving row has a non-empty cell (all-empty rows are discarded). -/
theorem tokenizer_scan_behavior :
    (∀ (rest : Str) (cur : Str) (curRow : List Str) (rows : List (List Str)),
      scanCsv ('"' :: rest) false cur curRow rows = scanCsv rest true cur curRow rows)
    ∧ (∀ (rest : Str) (cur : Str) (curRow : List Str) (rows : List (List Str)),
      rest.head? ≠ some '"' →
        scanCsv ('"' :: rest) true cur curRow rows = scanCsv rest false cur curRow rows)
    ∧ (∀ (rest : Str) (cur : Str) (curRow : List Str) (rows : List (List Str)),
      scanCsv ('"' :: '"' :: rest) true cur curRow rows =
        scanCsv rest true (cur ++ ['"']) curRow rows)
    ∧ (∀ (rest : Str) (cur : Str) (curRow : List Str) (rows : List (List Str)),
      scanCsv ('\r' :: '\n' :: rest) false cur curRow rows =
        scanCsv rest false [] [] (rows ++ [curRow ++ [cur]]))
    ∧ (∀ (inQ : Bool) (cur : Str) (curRow : List Str) (rows : List (List Str)),
      0 < curRow.length ∨ cur ≠ [] → scanCsv [] inQ cur curRow rows = rows ++ [curRow ++ [cur]])
    ∧ (∀ (text : Str) (row : List Str), row ∈ parseCsv text →
      (∀ cell ∈ row, trimL cell = cell) ∧ ∃ cell ∈ row, cell ≠ []) := by
  refine ⟨scanCsv_quote_open, scanCsv_quote_close, scanCsv_dquote, scanCsv_crlf, ?_, ?_⟩
  · intro inQ cur curRow rows h
    rw [scanCsv_nil, if_pos h]
  · intro text row h
    have hc := parseCsv_mem_clean text row h
    exact ⟨hc.1, ((keepRow_iff row).mp hc.2).2⟩

/-- Witness for C7: the hypothesis-bearing conjuncts applied at concrete
inputs. -/
theorem tokenizer_scan_behavior_witness :
    scanCsv ['"', 'x'] true (S "a") [] [] = scanCsv ['x'] false (S "a") [] []
    ∧ scanCsv [] false (S "a") [] [] = [[S "a"]]
    ∧ ((∀ cell ∈ [S "a", S "b"], trimL cell = cell) ∧ ∃ cell ∈ [S "a", S "b"], cell ≠ []) := by
  refine ⟨tokenizer_scan_behavior.2.1 ['x'] (S "a") [] [] (by decide), ?_, ?_⟩
  · have h := tokenizer_scan_behavior.2.2.2.2.1 false (S "a") [] [] (by decide)
    simpa using h
  · exact tokenizer_scan_behavior.2.2.2.2.2 (S " a ,b") [S "a", S "b"] (by decide)

/-! ## JavaScript numbers and shared field parsing

`parseNumber` in the source calls the ECMAScript `Number(string)` builtin on
the trimmed, comma-stripped cell and replaces non-finite results by `NaN`.
`JsNum` models a JavaScript number that is either the NaN sentinel or a
(finite) rational; `jsStringToNumber` models `Number(string)` on its decimal
fragment (`none` standing for NaN and for the non-finite `±Infinity`
results, which `parseNumber` collapses into NaN anyway; the exotic
hexadecimal/octal/binary literal forms are outside the modelled fragment). -/

inductive JsNum where
  | nan : JsNum
  | num (q : ℚ) : JsNum
deriving DecidableEq, Repr

/-- Numeric value of a digit string. -/
def digitsVal (ds : Str) : ℕ :=
  ds.foldl (fun acc c => 10 * acc + (c.toNat - '0'.toNat)) 0

/-- Parse the optional exponent part (`e`/`E`, optional sign, digits) that
must use up the whole remaining input. -/
def parseExpPart : Str → Option ℤ
  | [] => some 0
  | c :: rest =>
    if c = 'e' ∨ c = 'E' then
      let signed : ℤ × Str :=
        match rest with
        | '+' :: r => (1, r)
        | '-' :: r => (-1, r)
        | r => (1, r)
      if signed.2 ≠ [] ∧ signed.2.all Char.isDigit then
        some (signed.1 * digitsVal signed.2)
      else none
    else none

/-- The rational `m · 10 ^ e` (built with the core `Rat.divInt` so that it
evaluates inside the kernel). -/
def decScale (m : ℕ) (e : ℤ) : ℚ :=
  match e with
  | .ofNat k => Rat.divInt (m * 10 ^ k) 1
  | .negSucc k => Rat.divInt m (10 ^ (k + 1))

/-- Parse an unsigned ECMAScript decimal literal (`digits`, `digits.digits`,
`.digits`, each with an optional exponent), exactly, as a rational. -/
def parseUnsignedDec (s : Str) : Option ℚ :=
  let ip := s.takeWhile Char.isDigit
  let r1 := s.dropWhile Char.isDigit
  match r1 with
  | '.' :: r2 =>
    let fp := r2.takeWhile Char.isDigit
    let r3 := r2.dropWhile Char.isDigit
    if ip = [] ∧ fp = [] then none
    else (parseExpPart r3).map
      (fun e => decScale (digitsVal ip * 10 ^ fp.length + digitsVal fp) (e - fp.length))
  | _ =>
    if ip = [] then none
    else (parseExpPart r1).map (fun e => decScale (digitsVal ip) e)

/-- `Number(string)`, decimal fragment: trims, maps the empty string to `0`,
handles an optional sign, and treats `Infinity` (not finite) and anything
outside the decimal grammar as `none`. -/
def jsStringToNumber (s : Str) : Option ℚ :=
  let t := trimL s
  if t = [] then some 0
  else
    match t with
    | '+' :: r => if r = S "Infinity" then none else parseUnsignedDec r
    | '-' :: r => if r = S "Infinity" then none else (parseUnsignedDec r).map Rat.neg
    | _ => if t = S "Infinity" then none else parseUnsignedDec t

/-- `parseNumber` from the source: `undefined` for an absent or blank cell,
otherwise `Number(trimmed.replace(/,/g, ''))` with non-finite results
replaced by the NaN sentinel. -/
def parseNumber (value : Option Str) : Option JsNum :=
  match value with
  | none => none
  | some v =>
    let trimmed := trimL v
    if trimmed = [] then none
    else
      match jsStringToNumber (trimmed.filter (fun c => c != ',')) with
      | some q => some (.num q)
      | none => some .nan

/-- `parseBoolean` from the source (note `if (!value)` also catches the
empty string before trimming). -/
def parseBoolean (value : Option Str) : Option Bool :=
  match value with
  | none => none
  | some v =>
    if v = [] then none
    else
      let normalized := toLowerL (trimL v)
      if normalized ∈ [S "true", S "1", S "y", S "yes", S "활성", S "enable", S "enabled"] then
        some true
      else if normalized ∈ [S "false", S "0", S "n", S "no", S "비활성", S "disable", S "disabled"]
      then some false
      else none

/-- `Math.round` on a finite JavaScript number: `⌊q + 1/2⌋` (round half
toward `+∞`), computed with integer arithmetic; `jsRound_eq_floor` below
checks it against the mathematical definition. -/
def jsRound (q : ℚ) : ℤ := Int.fdiv (2 * q.num + q.den) (2 * q.den)

/-- The value behind `x ?? 0` for an optional JavaScript number.  In every
branch of the source where this is applied, validation has already ruled the
NaN sentinel out, so mapping NaN to `0` here is unreachable. -/
def numOrZero : Option JsNum → ℚ
  | some (.num q) => q
  | _ => 0

theorem jsRound_eq_floor (q : ℚ) : jsRound q = Int.floor (q + 1 / 2) := by
  have hden : ((q.den : ℚ)) ≠ 0 := by
    exact_mod_cast q.den_nz
  have hqd : q * (q.den : ℚ) = (q.num : ℚ) :=
    (eq_div_iff hden).mp (Rat.num_div_den q).symm
  have hq : q + 1 / 2 = ((2 * q.num + (q.den : ℤ) : ℤ) : ℚ) / ((2 * q.den : ℕ) : ℚ) := by
    rw [eq_div_iff (by positivity)]
    push_cast
    calc (q + 1 / 2) * (2 * (q.den : ℚ)) = 2 * (q * q.den) + q.den := by ring
    _ = 2 * (q.num : ℚ) + q.den := by rw [hqd]
  rw [jsRound, hq, Rat.floor_intCast_div_natCast,
    Int.fdiv_eq_ediv _ (by positivity)]
  norm_num

example : parseNumber (some (S " 1,234.5 ")) = some (.num (Rat.divInt 2469 2)) := by decide
example : parseNumber (some (S "abc")) = some .nan := by decide
example : parseNumber (some (S "  ")) = none := by decide
example : parseNumber (some (S ",")) = some (.num 0) := by decide
example : parseNumber (some (S "Infinity")) = some .nan := by decide
example : parseNumber (some (S "-2e2")) = some (.num (Rat.divInt (-200) 1)) := by decide
example : jsRound (Rat.divInt 5 2) = 3 := by decide
example : jsRound (Rat.divInt (-1) 2) = 0 := by decide
example : jsRound (Rat.divInt (-3) 2) = -1 := by decide
example : parseBoolean (some (S "YES")) = some true := by decide
example : parseBoolean (some (S "비활성")) = some false := by decide
example : parseBoolean (some (S "maybe")) = none := by decide

/-! ## Data model

`UploadType`, row actions, typed payloads and `ParsedRow`, mirroring the
interfaces of the CSV routes module.  The product payload produced by the
shared product validator lives in the products module, which is not among
the sources; following the specification it is an external collaborator, so
its value type is kept abstract as a type parameter `ProdVal` and the
validator itself as a function parameter. -/

inductive CsvUploadType where
  | products
  | initial_stock
  | movements
deriving DecidableEq, Repr

inductive CsvRowAction where
  | create
  | update
  | error
deriving DecidableEq, Repr

/-- `Record<string, string>` with JavaScript object-assignment semantics. -/
abbrev RawRecord : Type := List (Str × Str)

/-- Property read `raw[k]`: `none` models `undefined`. -/
def getField (r : RawRecord) (k : Str) : Option Str :=
  (r.find? (fun p => p.1 == k)).map (fun p => p.2)

/-- Property write `raw[k] = v` (overwrites an existing binding). -/
def setField (r : RawRecord) (k : Str) (v : Str) : RawRecord :=
  match r with
  | [] => [(k, v)]
  | (k', v') :: rest => if k' == k then (k, v) :: rest else (k', v') :: setField rest k v

/-- `normalizeKey`: trim, treating `undefined` as the empty string. -/
def normalizeKey (value : Option Str) : Str := trimL (value.getD [])

structure InitialStockPayload where
  sku : Str
  warehouse : Str
  location : Str
  onHand : ℤ
  reserved : ℤ
deriving DecidableEq, Repr

inductive MovementType where
  | INBOUND
  | OUTBOUND
deriving DecidableEq, Repr

structure MovementPayload where
  sku : Str
  warehouse : Str
  location : Str
  partner : Str
  quantity : ℤ
  type : MovementType
  reference : Option Str
  occurredAt : Str
deriving DecidableEq, Repr

/-- The payload union; the product variant carries the abstract validator
output. -/
inductive ParsedPayload (ProdVal : Type) where
  | product (v : ProdVal)
  | initialStock (p : InitialStockPayload)
  | movement (p : MovementPayload)
deriving DecidableEq

structure ParsedRow (ProdVal : Type) where
  index : ℕ
  lineNumber : ℕ
  action : CsvRowAction
  raw : RawRecord
  messages : Option (List Str)
  payload : Option (ParsedPayload ProdVal)
deriving DecidableEq

structure PreviewSummary where
  total : ℕ
  newCount : ℕ
  updateCount : ℕ
  errorCount : ℕ
deriving DecidableEq, Repr

/-- The static warehouse catalog (`warehouseCatalog` in the source). -/
structure WarehouseInfo where
  name : Str
  locations : List Str
deriving DecidableEq, Repr

def warehouseCatalog : List (Str × WarehouseInfo) :=
  [(S "ICN1", ⟨S "인천 풀필먼트 센터", [S "A-01", S "A-02", S "B-01", S "B-02"]⟩),
   (S "PUS1", ⟨S "부산 허브", [S "P-01", S "P-02", S "P-03"]⟩),
   (S "DJN1", ⟨S "대전 물류센터", [S "D-01", S "D-02"]⟩)]

/-- `warehouseCatalog[warehouse]`. -/
def warehouseLookup (w : Str) : Option WarehouseInfo :=
  (warehouseCatalog.find? (fun p => p.1 == w)).map (fun p => p.2)

/-- The static partner catalog (`partnerCatalog` in the source). -/
def partnerCatalog : List Str :=
  [S "SUP-0001", S "SUP-0002", S "CUS-0001", S "CUS-0002"]

/-- `buildStockKey`. -/
def buildStockKey (sku warehouse location : Str) : Str :=
  sku ++ S "::" ++ warehouse ++ S "::" ++ location

/-- The in-memory initial-stock store, as an association list keyed by
`buildStockKey`. -/
abbrev StockStore : Type := List (Str × InitialStockPayload)

/-- `initialStockStore.get(key)`. -/
def stockLookup (store : StockStore) (key : Str) : Option InitialStockPayload :=
  (store.find? (fun p => p.1 == key)).map (fun p => p.2)

/-- `initialStockStore.set(key, payload)`. -/
def stockSet (store : StockStore) (key : Str) (payload : InitialStockPayload) : StockStore :=
  match store with
  | [] => [(key, payload)]
  | (k', v') :: rest =>
    if k' == key then (key, payload) :: rest else (k', v') :: stockSet rest key payload

/-! ## Row classifiers -/

/-- The candidate record assembled by `parseProductRow` before it is handed
to the shared product validator. -/
structure ProductCandidate where
  sku : Str
  name : Str
  category : Str
  subCategory : Str
  brand : Str
  unit : Str
  packCase : Str
  abcGrade : Str
  xyzGrade : Str
  bufferRatio : Option JsNum
  dailyAvg : Option JsNum
  dailyStd : Option JsNum
  isActive : Option Bool
  onHand : Option JsNum
  reserved : Option JsNum
  risk : Str
  expiryDays : Option JsNum
deriving DecidableEq

/-- Modelled from the spec: the shared product validator
(`validateProductPayload` from the products module, an external collaborator
not among the sources) either accepts the candidate, yielding a typed
payload value, or rejects it with a list of error messages. -/
inductive ProductValidation (ProdVal : Type) where
  | success (value : ProdVal)
  | failure (errors : List Str)
deriving DecidableEq

/-- `parseProductRow`.  The shared validator, the SKU projection of its
output and the product-catalog membership test (`__findProductBySku`) are
abstract collaborator parameters. -/
def buildProductCandidate (raw : RawRecord) : ProductCandidate :=
  let candidate0 : ProductCandidate :=
    { sku := normalizeKey (getField raw (S "sku"))
      name := normalizeKey (getField raw (S "name"))
      category := normalizeKey (getField raw (S "category"))
      subCategory := normalizeKey (getField raw (S "subCategory"))
      brand := normalizeKey (getField raw (S "brand"))
      unit := normalizeKey (getField raw (S "unit"))
      packCase := normalizeKey (getField raw (S "packCase"))
      abcGrade := normalizeKey (getField raw (S "abcGrade"))
      xyzGrade := normalizeKey (getField raw (S "xyzGrade"))
      bufferRatio := parseNumber (getField raw (S "bufferRatio"))
      dailyAvg := parseNumber (getField raw (S "dailyAvg"))
      dailyStd := parseNumber (getField raw (S "dailyStd"))
      isActive := parseBoolean (getField raw (S "isActive"))
      onHand := parseNumber (getField raw (S "onHand"))
      reserved := parseNumber (getField raw (S "reserved"))
      risk := normalizeKey (getField raw (S "risk"))
      expiryDays := parseNumber (getField raw (S "expiryDays")) }
  let candidate : ProductCandidate :=
    { candidate0 with
      bufferRatio := if candidate0.bufferRatio = some .nan then none else candidate0.bufferRatio
      dailyAvg := if candidate0.dailyAvg = some .nan then some .nan else candidate0.dailyAvg
      dailyStd := if candidate0.dailyStd = some .nan then some .nan else candidate0.dailyStd
      onHand := if candidate0.onHand = some .nan then some .nan else candidate0.onHand
      reserved := if candidate0.reserved = some .nan then some .nan else candidate0.reserved
      expiryDays := if candidate0.expiryDays = some .nan then some .nan else candidate0.expiryDays }
  candidate

def parseProductRow {ProdVal : Type}
    (validate : ProductCandidate → ProductValidation ProdVal)
    (skuOf : ProdVal → Str) (findSku : Str → Bool)
    (raw : RawRecord) (lineNumber : ℕ) : ParsedRow ProdVal :=
  match validate (buildProductCandidate raw) with
  | .failure errs =>
    { index := lineNumber - 1, lineNumber, action := .error, raw
      messages := some errs, payload := none }
  | .success value =>
    let existing := findSku (skuOf value)
    { index := lineNumber - 1, lineNumber
      action := if existing then .update else .create, raw
      messages := none, payload := some (.product value) }

/-- The error accumulation of `parseInitialStockRow` (appended in source
order). -/
def initialStockErrors (findSku : Str → Bool) (raw : RawRecord) : List Str :=
  let sku := normalizeKey (getField raw (S "sku"))
  let e1 : List Str := if sku = [] then [S "sku 필드는 필수입니다."] else []
  let product : Bool := if sku ≠ [] then findSku sku else false
  let e2 : List Str := if sku ≠ [] ∧ product = false then [S "존재하지 않는 SKU입니다."] else []
  let warehouse := toUpperL (normalizeKey (getField raw (S "warehouse")))
  let e3 : List Str :=
    if warehouse = [] then [S "warehouse 필드는 필수입니다."]
    else if (warehouseLookup warehouse).isNone then [S "등록되지 않은 창고 코드입니다."]
    else []
  let location := toUpperL (normalizeKey (getField raw (S "location")))
  let e4 : List Str :=
    if location = [] then [S "location 필드는 필수입니다."]
    else
      match warehouseLookup warehouse with
      | some wi =>
        if warehouse ≠ [] ∧ location ∉ wi.locations then [S "창고에 존재하지 않는 보관위치입니다."]
        else []
      | none => []
  let onHandValue := parseNumber (getField raw (S "onHand"))
  let reservedValue := parseNumber (getField raw (S "reserved"))
  let e5 : List Str :=
    if onHandValue = none ∨ onHandValue = some .nan then [S "onHand 필드는 숫자여야 합니다."] else []
  let e6 : List Str :=
    if reservedValue ≠ none ∧ reservedValue = some .nan then [S "reserved 필드는 숫자여야 합니다."]
    else []
  e1 ++ e2 ++ e3 ++ e4 ++ e5 ++ e6

/-- `parseInitialStockRow`, with `__findProductBySku` abstracted to a
product-catalog membership test and the mutable `initialStockStore` passed
as a snapshot. -/
def parseInitialStockRow {ProdVal : Type} (findSku : Str → Bool) (store : StockStore)
    (raw : RawRecord) (lineNumber : ℕ) : ParsedRow ProdVal :=
  if initialStockErrors findSku raw ≠ [] then
    { index := lineNumber - 1, lineNumber, action := .error, raw
      messages := some (initialStockErrors findSku raw), payload := none }
  else
    let sku := normalizeKey (getField raw (S "sku"))
    let warehouse := toUpperL (normalizeKey (getField raw (S "warehouse")))
    let location := toUpperL (normalizeKey (getField raw (S "location")))
    let onHandValue := parseNumber (getField raw (S "onHand"))
    let reservedValue := parseNumber (getField raw (S "reserved"))
    let payload : InitialStockPayload :=
      { sku, warehouse, location
        onHand := max (jsRound (numOrZero onHandValue)) 0
        reserved := max (jsRound (numOrZero reservedValue)) 0 }
    let key := buildStockKey sku warehouse location
    let existing := stockLookup store key
    { index := lineNumber - 1, lineNumber
      action := if existing.isSome then .update else .create, raw
      messages := none, payload := some (.initialStock payload) }

/-! `parseMovementRow` and its pieces.  The `new Date(...)` /
`toISOString` pair is an external builtin, abstracted as `parseDate`
(`none` for an invalid date text), and `new Date().toISOString()` as
`nowIso`. -/

/-- The `type` normalization of `parseMovementRow`: the error list it
contributes and the normalized movement direction. -/
def movementTypeNorm (raw : RawRecord) : List Str × Option MovementType :=
  let ty := toUpperL (normalizeKey (getField raw (S "type")))
  if ty = [] then ([S "type 필드는 필수입니다."], none)
  else if ty ∈ [S "IN", S "INBOUND", S "입고"] then ([], some .INBOUND)
  else if ty ∈ [S "OUT", S "OUTBOUND", S "출고"] then ([], some .OUTBOUND)
  else ([S "type 필드는 INBOUND 또는 OUTBOUND 이어야 합니다."], none)

/-- The `occurredAt` handling of `parseMovementRow`: the error list it
contributes and the normalized ISO timestamp when present and valid. -/
def movementOccurred (parseDate : Str → Option Str) (raw : RawRecord) :
    List Str × Option Str :=
  let occurredAtRaw := normalizeKey (getField raw (S "occurredAt"))
  if occurredAtRaw = [] then ([], none)
  else
    match parseDate occurredAtRaw with
    | none => ([S "occurredAt 필드가 날짜 형식이 아닙니다."], none)
    | some iso => ([], some iso)

/-- The error accumulation of `parseMovementRow` (appended in source
order). -/
def movementErrors (findSku : Str → Bool) (parseDate : Str → Option Str)
    (raw : RawRecord) : List Str :=
  let sku := normalizeKey (getField raw (S "sku"))
  let e1 : List Str := if sku = [] then [S "sku 필드는 필수입니다."] else []
  let product : Bool := if sku ≠ [] then findSku sku else false
  let e2 : List Str := if sku ≠ [] ∧ product = false then [S "존재하지 않는 SKU입니다."] else []
  let warehouse := toUpperL (normalizeKey (getField raw (S "warehouse")))
  let e3 : List Str :=
    if warehouse = [] then [S "warehouse 필드는 필수입니다."]
    else if (warehouseLookup warehouse).isNone then [S "등록되지 않은 창고 코드입니다."]
    else []
  let location := toUpperL (normalizeKey (getField raw (S "location")))
  let e4 : List Str :=
    if location = [] then [S "location 필드는 필수입니다."]
    else
      match warehouseLookup warehouse with
      | some wi =>
        if warehouse ≠ [] ∧ location ∉ wi.locations then [S "창고에 존재하지 않는 보관위치입니다."]
        else []
      | none => []
  let partner := toUpperL (normalizeKey (getField raw (S "partner")))
  let e5 : List Str :=
    if partner = [] then [S "partner 필드는 필수입니다."]
    else if partner ∉ partnerCatalog then [S "등록되지 않은 거래처 코드입니다."]
    else []
  let quantityValue := parseNumber (getField raw (S "quantity"))
  let e6 : List Str :=
    match quantityValue with
    | none => [S "quantity 필드는 숫자여야 합니다."]
    | some .nan => [S "quantity 필드는 숫자여야 합니다."]
    | some (.num q) => if jsRound q = 0 then [S "quantity 필드는 0이 될 수 없습니다."] else []
  e1 ++ e2 ++ e3 ++ e4 ++ e5 ++ e6 ++ (movementTypeNorm raw).1
    ++ (movementOccurred parseDate raw).1

def parseMovementRow {ProdVal : Type} (findSku : Str → Bool)
    (parseDate : Str → Option Str) (nowIso : Str)
    (raw : RawRecord) (lineNumber : ℕ) : ParsedRow ProdVal :=
  match (movementTypeNorm raw).2 with
  | none =>
    { index := lineNumber - 1, lineNumber, action := .error, raw
      messages := some (movementErrors findSku parseDate raw), payload := none }
  | some normalizedType =>
    if movementErrors findSku parseDate raw ≠ [] then
      { index := lineNumber - 1, lineNumber, action := .error, raw
        messages := some (movementErrors findSku parseDate raw), payload := none }
    else
      let sku := normalizeKey (getField raw (S "sku"))
      let warehouse := toUpperL (normalizeKey (getField raw (S "warehouse")))
      let location := toUpperL (normalizeKey (getField raw (S "location")))
      let partner := toUpperL (normalizeKey (getField raw (S "partner")))
      let quantityValue := parseNumber (getField raw (S "quantity"))
      let reference := normalizeKey (getField raw (S "reference"))
      let payload : MovementPayload :=
        { sku, warehouse, location, partner
          quantity := jsRound (numOrZero quantityValue)
          type := normalizedType
          reference := if reference = [] then none else some reference
          occurredAt := (movementOccurred parseDate raw).2.getD nowIso }
      { index := lineNumber - 1, lineNumber, action := .create, raw
        messages := none, payload := some (.movement payload) }

/-- `analyzeRows`: build the per-row record from the header columns (later
duplicate columns overwrite earlier ones, missing cells read as `''`) and
dispatch on the upload type; `lineNumber = index + 2` because the header is
line 1. -/
def analyzeRows {ProdVal : Type}
    (validate : ProductCandidate → ProductValidation ProdVal) (skuOf : ProdVal → Str)
    (findSku : Str → Bool) (store : StockStore)
    (parseDate : Str → Option Str) (nowIso : Str)
    (ty : CsvUploadType) (columns : List Str) (table : List (List Str)) :
    List (ParsedRow ProdVal) :=
  table.enum.map (fun p =>
    let index := p.1
    let cells := p.2
    let row : RawRecord :=
      columns.enum.foldl (fun acc cp => setField acc cp.2 (cells.getD cp.1 [])) []
    let lineNumber := index + 2
    match ty with
    | .products => parseProductRow validate skuOf findSku row lineNumber
    | .initial_stock => parseInitialStockRow findSku store row lineNumber
    | .movements => parseMovementRow findSku parseDate nowIso row lineNumber)

/-- The reducer body of `summarizeRows`: bump the counter matching the
row's action (`error` returns early, `create` bumps `newCount`, everything
else bumps `updateCount`). -/
def summarizeStep {ProdVal : Type} (acc : PreviewSummary) (row : ParsedRow ProdVal) :
    PreviewSummary :=
  match row.action with
  | .error => { acc with errorCount := acc.errorCount + 1 }
  | .create => { acc with newCount := acc.newCount + 1 }
  | .update => { acc with updateCount := acc.updateCount + 1 }

/-- `summarizeRows`: one pass over the analyzed rows, starting from
`total = rows.length`. -/
def summarizeRows {ProdVal : Type} (rows : List (ParsedRow ProdVal)) : PreviewSummary :=
  rows.foldl summarizeStep
    { total := rows.length, newCount := 0, updateCount := 0, errorCount := 0 }

example :
    (@parseInitialStockRow Unit (fun _ => true) []
      [(S "sku", S "A"), (S "warehouse", S "icn1"), (S "location", S "a-01"),
       (S "onHand", S "5")] 2) =
    { index := 1, lineNumber := 2, action := .create
      raw := [(S "sku", S "A"), (S "warehouse", S "icn1"), (S "location", S "a-01"),
              (S "onHand", S "5")]
      messages := none
      payload := some (.initialStock
        { sku := S "A", warehouse := S "ICN1", location := S "A-01",
          onHand := 5, reserved := 0 }) } := by decide

example :
    (@parseInitialStockRow Unit (fun _ => true) []
      [(S "sku", S "A"), (S "warehouse", S "ZZZ9"), (S "location", S "A-01"),
       (S "onHand", S "5")] 2).messages =
    some [S "등록되지 않은 창고 코드입니다."] := by decide

example :
    (@parseMovementRow Unit (fun _ => true) (fun _ => none) []
      [(S "sku", S "A"), (S "warehouse", S "pus1"), (S "location", S "p-01"),
       (S "partner", S "sup-0001"), (S "type", S "입고"), (S "quantity", S "3.6")] 2) =
    { index := 1, lineNumber := 2, action := .create
      raw := [(S "sku", S "A"), (S "warehouse", S "pus1"), (S "location", S "p-01"),
              (S "partner", S "sup-0001"), (S "type", S "입고"), (S "quantity", S "3.6")]
      messages := none
      payload := some (.movement
        { sku := S "A", warehouse := S "PUS1", location := S "P-01",
          partner := S "SUP-0001", quantity := 4, type := .INBOUND,
          reference := none, occurredAt := [] }) } := by decide

example :
    @summarizeRows Unit
      [⟨1, 2, .create, [], none, none⟩, ⟨2, 3, .error, [], some [], none⟩,
       ⟨3, 4, .update, [], none, none⟩] =
    { total := 3, newCount := 1, updateCount := 1, errorCount := 1 } := by decide

/-- Auxiliary invariant of the `summarizeRows` fold: the pass never touches
`total` and each counter ends at its start plus the number of rows with the
matching action. -/
theorem summarizeRows_foldl {ProdVal : Type} (rows : List (ParsedRow ProdVal))
    (acc : PreviewSummary) :
    (rows.foldl summarizeStep acc).total = acc.total
    ∧ (rows.foldl summarizeStep acc).newCount
      = acc.newCount + (rows.filter (fun r => r.action == .create)).length
    ∧ (rows.foldl summarizeStep acc).updateCount
      = acc.updateCount + (rows.filter (fun r => r.action == .update)).length
    ∧ (rows.foldl summarizeStep acc).errorCount
      = acc.errorCount + (rows.filter (fun r => r.action == .error)).length := by
  induction rows generalizing acc with
  | nil => simp
  | cons r rs ih =>
    rcases hr : r.action with _ | _ | _ <;>
      · simp only [List.foldl_cons, List.filter_cons, summarizeStep, hr]
        simp [ih, hr]
        try omega

/-- C9: for every list of `ParsedRow`, the computed `PreviewSummary`
satisfies `total = newCount + updateCount + errorCount`, where `total` is
the length of the list and the three counters count the rows with action
Create, Update and Error respectively. -/
theorem summarizeRows_total_eq {ProdVal : Type} (rows : List (ParsedRow ProdVal)) :
    (summarizeRows rows).total
      = (summarizeRows rows).newCount + (summarizeRows rows).updateCount
        + (summarizeRows rows).errorCount
    ∧ (summarizeRows rows).total = rows.length
    ∧ (summarizeRows rows).newCount = (rows.filter (fun r => r.action == .create)).length
    ∧ (summarizeRows rows).updateCount = (rows.filter (fun r => r.action == .update)).length
    ∧ (summarizeRows rows).errorCount = (rows.filter (fun r => r.action == .error)).length := by
  have hpart : (rows.filter (fun r => r.action == .create)).length
      + (rows.filter (fun r => r.action == .update)).length
      + (rows.filter (fun r => r.action == .error)).length = rows.length := by
    induction rows with
    | nil => simp
    | cons r rs ihp =>
      rcases hr : r.action with _ | _ | _ <;> simp [List.filter_cons, hr, ihp] <;> omega
  obtain ⟨h1, h2, h3, h4⟩ := summarizeRows_foldl rows
    { total := rows.length, newCount := 0, updateCount := 0, errorCount := 0 }
  unfold summarizeRows
  refine ⟨?_, ?_, ?_, ?_, ?_⟩ <;> simp_all <;> omega

/-! ## C5: row positions -/

theorem parseProductRow_pos {ProdVal : Type}
    (validate : ProductCandidate → ProductValidation ProdVal)
    (skuOf : ProdVal → Str) (findSku : Str → Bool) (raw : RawRecord) (ln : ℕ) :
    (parseProductRow validate skuOf findSku raw ln).lineNumber = ln
    ∧ (parseProductRow validate skuOf findSku raw ln).index = ln - 1 := by
  simp only [parseProductRow]
  split <;> exact ⟨rfl, rfl⟩

theorem parseInitialStockRow_pos {ProdVal : Type} (findSku : Str → Bool) (store : StockStore)
    (raw : RawRecord) (ln : ℕ) :
    (@parseInitialStockRow ProdVal findSku store raw ln).lineNumber = ln
    ∧ (@parseInitialStockRow ProdVal findSku store raw ln).index = ln - 1 := by
  simp only [parseInitialStockRow]
  split <;> exact ⟨rfl, rfl⟩

theorem parseMovementRow_pos {ProdVal : Type} (findSku : Str → Bool)
    (parseDate : Str → Option Str) (nowIso : Str) (raw : RawRecord) (ln : ℕ) :
    (@parseMovementRow ProdVal findSku parseDate nowIso raw ln).lineNumber = ln
    ∧ (@parseMovementRow ProdVal findSku parseDate nowIso raw ln).index = ln - 1 := by
  simp only [parseMovementRow]
  split
  · exact ⟨rfl, rfl⟩
  · split <;> exact ⟨rfl, rfl⟩

/-- C5 (amended): for every data row produced by the Row Classifier, the
`lineNumber` field is the 1-based physical CSV line with the header on line
1 (position `i` among the data rows gives `lineNumber = i + 2`), but the
`index` field is `lineNumber - 1 = i + 1` — the 0-based physical line of the
row — not the 0-based position `i` within the data rows. -/
theorem analyzeRows_positions {ProdVal : Type}
    (validate : ProductCandidate → ProductValidation ProdVal) (skuOf : ProdVal → Str)
    (findSku : Str → Bool) (store : StockStore)
    (parseDate : Str → Option Str) (nowIso : Str)
    (ty : CsvUploadType) (columns : List Str) (table : List (List Str))
    (i : ℕ) (h : i < (analyzeRows validate skuOf findSku store parseDate nowIso
      ty columns table).length) :
    (analyzeRows validate skuOf findSku store parseDate nowIso ty columns table)[i].lineNumber
      = i + 2
    ∧ (analyzeRows validate skuOf findSku store parseDate nowIso ty columns table)[i].index
      = i + 1 := by
  have hlen : (analyzeRows validate skuOf findSku store parseDate nowIso
      ty columns table).length = table.length := by
    simp [analyzeRows]
  rw [hlen] at h
  unfold analyzeRows
  rw [List.getElem_map]
  rw [List.getElem_enum]
  cases ty
  · have := parseProductRow_pos validate skuOf findSku
      (columns.enum.foldl (fun acc cp => setField acc cp.2 (table[i].getD cp.1 [])) []) (i + 2)
    simpa using this
  · have := @parseInitialStockRow_pos ProdVal findSku store
      (columns.enum.foldl (fun acc cp => setField acc cp.2 (table[i].getD cp.1 [])) []) (i + 2)
    simpa using this
  · have := @parseMovementRow_pos ProdVal findSku parseDate nowIso
      (columns.enum.foldl (fun acc cp => setField acc cp.2 (table[i].getD cp.1 [])) []) (i + 2)
    simpa using this

/-- Witness for C5's amended statement at a concrete input: the first data
row of a two-row `initial_stock` upload gets `lineNumber = 2, index = 1`,
the second `lineNumber = 3, index = 2`. -/
theorem analyzeRows_positions_witness :
    (((@analyzeRows Unit (fun _ => .failure []) (fun _ => []) (fun _ => false) []
        (fun _ => none) [] .initial_stock [S "sku"] [[S "A"], [S "B"]]).get
      ⟨0, by decide⟩).lineNumber = 2
    ∧ ((@analyzeRows Unit (fun _ => .failure []) (fun _ => []) (fun _ => false) []
        (fun _ => none) [] .initial_stock [S "sku"] [[S "A"], [S "B"]]).get
      ⟨0, by decide⟩).index = 1)
    ∧ (((@analyzeRows Unit (fun _ => .failure []) (fun _ => []) (fun _ => false) []
        (fun _ => none) [] .initial_stock [S "sku"] [[S "A"], [S "B"]]).get
      ⟨1, by decide⟩).lineNumber = 3
    ∧ ((@analyzeRows Unit (fun _ => .failure []) (fun _ => []) (fun _ => false) []
        (fun _ => none) [] .initial_stock [S "sku"] [[S "A"], [S "B"]]).get
      ⟨1, by decide⟩).index = 2) :=
  ⟨@analyzeRows_positions Unit (fun _ => .failure []) (fun _ => [])
      (fun _ => false) [] (fun _ => none) [] .initial_stock [S "sku"] [[S "A"], [S "B"]]
      0 (by decide),
    @analyzeRows_positions Unit (fun _ => .failure []) (fun _ => [])
      (fun _ => false) [] (fun _ => none) [] .initial_stock [S "sku"] [[S "A"], [S "B"]]
      1 (by decide)⟩

/-- Counterexample to C5 as stated: in a one-row `initial_stock` upload the
single data row (0-based position `0`) is produced with `index = 1`, not
`0` (the source sets `index = lineNumber - 1`, the 0-based physical line). -/
theorem analyzeRows_index_counterexample :
    ((@analyzeRows Unit (fun _ => .failure []) (fun _ => []) (fun _ => false) []
        (fun _ => none) [] .initial_stock [S "sku"] [[S "A"]]).map (fun r => r.index))
      = [1] ∧ (1 : ℕ) ≠ 0 := by decide
-- appended experimentally
theorem initialStockErrors_nil (findSku : Str → Bool) (raw : RawRecord)
    (h : initialStockErrors findSku raw = []) :
    normalizeKey (getField raw (S "sku")) ≠ []
    ∧ findSku (normalizeKey (getField raw (S "sku"))) = true
    ∧ (∃ wi, warehouseLookup (toUpperL (normalizeKey (getField raw (S "warehouse")))) = some wi
        ∧ toUpperL (normalizeKey (getField raw (S "location"))) ∈ wi.locations)
    ∧ (∃ q, parseNumber (getField raw (S "onHand")) = some (JsNum.num q))
    ∧ (parseNumber (getField raw (S "reserved")) = none
        ∨ ∃ q, parseNumber (getField raw (S "reserved")) = some (JsNum.num q)) := by
  simp only [initialStockErrors, List.append_eq_nil] at h
  obtain ⟨⟨⟨⟨⟨h1, h2⟩, h3⟩, h4⟩, h5⟩, h6⟩ := h
  have hsku : normalizeKey (getField raw (S "sku")) ≠ [] := by
    intro hc
    rw [if_pos hc] at h1
    simp at h1
  have hfind : findSku (normalizeKey (getField raw (S "sku"))) = true := by
    by_contra hc
    have hcf : findSku (normalizeKey (getField raw (S "sku"))) = false := by
      revert hc
      cases findSku (normalizeKey (getField raw (S "sku"))) <;> simp
    rw [if_pos ⟨hsku, by rw [if_pos hsku]; exact hcf⟩] at h2
    simp at h2
  have hwne : toUpperL (normalizeKey (getField raw (S "warehouse"))) ≠ [] := by
    intro hc
    rw [if_pos hc] at h3
    simp at h3
  have hwsome : ∃ wi,
      warehouseLookup (toUpperL (normalizeKey (getField raw (S "warehouse")))) = some wi := by
    rw [if_neg hwne] at h3
    rcases hlk : warehouseLookup (toUpperL (normalizeKey (getField raw (S "warehouse")))) with
      _ | wi
    · simp [hlk] at h3
    · exact ⟨wi, rfl⟩
  obtain ⟨wi, hwi⟩ := hwsome
  have hlocne : toUpperL (normalizeKey (getField raw (S "location"))) ≠ [] := by
    intro hc
    rw [if_pos hc] at h4
    simp at h4
  have hlocmem : toUpperL (normalizeKey (getField raw (S "location"))) ∈ wi.locations := by
    rw [if_neg hlocne] at h4
    simp only [hwi] at h4
    by_contra hc
    rw [if_pos ⟨hwne, hc⟩] at h4
    simp at h4
  have honhand : ∃ q, parseNumber (getField raw (S "onHand")) = some (JsNum.num q) := by
    rcases ho : parseNumber (getField raw (S "onHand")) with _ | jn
    · simp [ho] at h5
    · rcases jn with _ | q
      · simp [ho] at h5
      · exact ⟨q, rfl⟩
  have hres : parseNumber (getField raw (S "reserved")) = none
      ∨ ∃ q, parseNumber (getField raw (S "reserved")) = some (JsNum.num q) := by
    rcases hr : parseNumber (getField raw (S "reserved")) with _ | jn
    · exact Or.inl rfl
    · rcases jn with _ | q
      · simp [hr] at h6
      · exact Or.inr ⟨q, rfl⟩
  exact ⟨hsku, hfind, ⟨wi, hwi, hlocmem⟩, honhand, hres⟩

/-- C6: an `initial_stock` row classifies as Error (with accumulated
messages) unless its sku resolves to an existing product, its warehouse
exists in the static warehouse catalog, its location belongs to that
warehouse's location list, and its onHand cell parses as a number; in a
non-Error row the payload's `reserved` defaults to `0` when the cell is
absent, `onHand` and `reserved` are rounded to integers and floored at `0`,
and the action is Update exactly if a stock row already exists under the
key `(sku, warehouse, location)` and Create otherwise. -/
theorem parseInitialStockRow_classification {ProdVal : Type} (findSku : Str → Bool)
    (store : StockStore) (raw : RawRecord) (ln : ℕ)
    (sku wh loc : Str) (onHandV reservedV : Option JsNum)
    (hsku : sku = normalizeKey (getField raw (S "sku")))
    (hwh : wh = toUpperL (normalizeKey (getField raw (S "warehouse"))))
    (hloc : loc = toUpperL (normalizeKey (getField raw (S "location"))))
    (hon : onHandV = parseNumber (getField raw (S "onHand")))
    (hres : reservedV = parseNumber (getField raw (S "reserved"))) :
    (¬(sku ≠ [] ∧ findSku sku = true
        ∧ (∃ wi, warehouseLookup wh = some wi ∧ loc ∈ wi.locations)
        ∧ (∃ q, onHandV = some (JsNum.num q))) →
      (@parseInitialStockRow ProdVal findSku store raw ln).action = .error
      ∧ ∃ msgs,
          (@parseInitialStockRow ProdVal findSku store raw ln).messages = some msgs
          ∧ msgs ≠ [])
    ∧ ((@parseInitialStockRow ProdVal findSku store raw ln).action ≠ .error →
      ∃ q, onHandV = some (JsNum.num q)
        ∧ ∃ rq : ℚ, ((reservedV = none ∧ rq = 0) ∨ reservedV = some (JsNum.num rq))
        ∧ (@parseInitialStockRow ProdVal findSku store raw ln).payload
            = some (.initialStock
                { sku := sku, warehouse := wh, location := loc,
                  onHand := max (jsRound q) 0, reserved := max (jsRound rq) 0 })
        ∧ ((@parseInitialStockRow ProdVal findSku store raw ln).action = .update
            ↔ (stockLookup store (buildStockKey sku wh loc)).isSome = true)
        ∧ ((@parseInitialStockRow ProdVal findSku store raw ln).action = .create
            ↔ ¬(stockLookup store (buildStockKey sku wh loc)).isSome = true)) := by
  subst hsku hwh hloc hon hres
  by_cases herr : initialStockErrors findSku raw = []
  · obtain ⟨h1, h2, h3, h4, h5⟩ := initialStockErrors_nil findSku raw herr
    constructor
    · intro hnc
      exact absurd ⟨h1, h2, h3, h4⟩ hnc
    · intro _
      obtain ⟨q, hq⟩ := h4
      refine ⟨q, hq, ?_⟩
      have hrow : @parseInitialStockRow ProdVal findSku store raw ln
          = { index := ln - 1, lineNumber := ln
              action :=
                if (stockLookup store
                    (buildStockKey (normalizeKey (getField raw (S "sku")))
                      (toUpperL (normalizeKey (getField raw (S "warehouse"))))
                      (toUpperL (normalizeKey (getField raw (S "location")))))).isSome
                then .update else .create
              raw := raw
              messages := none
              payload := some (.initialStock
                { sku := normalizeKey (getField raw (S "sku"))
                  warehouse := toUpperL (normalizeKey (getField raw (S "warehouse")))
                  location := toUpperL (normalizeKey (getField raw (S "location")))
                  onHand := max (jsRound (numOrZero (parseNumber (getField raw (S "onHand"))))) 0
                  reserved :=
                    max (jsRound (numOrZero (parseNumber (getField raw (S "reserved"))))) 0 }) } := by
        simp only [parseInitialStockRow]
        rw [if_neg (by simpa using herr)]
      rcases h5 with hnone | ⟨rq, hrq⟩
      · refine ⟨0, Or.inl ⟨hnone, rfl⟩, ?_, ?_, ?_⟩ <;>
          · rw [hrow]
            simp [hq, hnone, numOrZero, Option.isSome_iff_ne_none]
            try split <;> simp_all [Option.isSome_iff_ne_none]
      · refine ⟨rq, Or.inr hrq, ?_, ?_, ?_⟩ <;>
          · rw [hrow]
            simp [hq, hrq, numOrZero, Option.isSome_iff_ne_none]
            try split <;> simp_all [Option.isSome_iff_ne_none]
  · have hrow : (@parseInitialStockRow ProdVal findSku store raw ln).action = .error
        ∧ (@parseInitialStockRow ProdVal findSku store raw ln).messages
          = some (initialStockErrors findSku raw) := by
      simp only [parseInitialStockRow]
      rw [if_pos herr]
      exact ⟨rfl, rfl⟩
    constructor
    · intro _
      exact ⟨hrow.1, initialStockErrors findSku raw, hrow.2, herr⟩
    · intro hne
      exact absurd hrow.1 hne

/-- Witness for C6: a fully valid `initial_stock` row (`warehouse` given in
lower case, `reserved` absent, fractional `onHand`) classifies as Create
with the normalized, rounded payload. -/
theorem parseInitialStockRow_classification_witness :
    (@parseInitialStockRow Unit (fun _ => true) []
        [(S "sku", S "A"), (S "warehouse", S "icn1"), (S "location", S "a-01"),
         (S "onHand", S "5.4")] 2).payload
      = some (.initialStock
          { sku := S "A", warehouse := S "ICN1", location := S "A-01",
            onHand := 5, reserved := 0 })
    ∧ (@parseInitialStockRow Unit (fun _ => true) []
        [(S "sku", S "A"), (S "warehouse", S "icn1"), (S "location", S "a-01"),
         (S "onHand", S "5.4")] 2).action = .create := by
  obtain ⟨q, hq, rq, hrq, hpay, hupd, hcre⟩ :=
    (@parseInitialStockRow_classification Unit (fun _ => true) []
      [(S "sku", S "A"), (S "warehouse", S "icn1"), (S "location", S "a-01"),
       (S "onHand", S "5.4")] 2 _ _ _ _ _ rfl rfl rfl rfl rfl).2 (by decide)
  have h5 : parseNumber (getField
      [(S "sku", S "A"), (S "warehouse", S "icn1"), (S "location", S "a-01"),
       (S "onHand", S "5.4")] (S "onHand")) = some (JsNum.num (Rat.divInt 27 5)) := by decide
  rw [h5] at hq
  have hq' : q = Rat.divInt 27 5 := by
    cases hq
    rfl
  subst hq'
  rcases hrq with ⟨_, hrq0⟩ | hbad
  · subst hrq0
    refine ⟨?_, hcre.mpr (by decide)⟩
    rw [hpay]
    norm_num
    decide
  · rw [show parseNumber (getField
      [(S "sku", S "A"), (S "warehouse", S "icn1"), (S "location", S "a-01"),
       (S "onHand", S "5.4")] (S "reserved")) = none from by decide] at hbad
    simp at hbad

/-! ## C8: unregistered warehouse codes -/

/-- Whether `hay` starts with `needle`. -/
def startsWithL : Str → Str → Bool
  | [], _ => true
  | _ :: _, [] => false
  | a :: as, b :: bs => a = b && startsWithL as bs

/-- Whether `needle` occurs as a contiguous segment of `hay` (the substring
test behind "the message names the code"). -/
def containsSeg (needle : Str) : Str → Bool
  | [] => startsWithL needle []
  | c :: rest => startsWithL needle (c :: rest) || containsSeg needle rest

example : containsSeg (S "ZZ") (S "aZZb") = true := by decide
example : containsSeg (S "ZZ") (S "aZbZ") = false := by decide

/-- C8 (amended): an `initial_stock` row whose warehouse cell is non-empty
but names a warehouse code absent from the static catalog always classifies
as Error, carrying the fixed message `'등록되지 않은 창고 코드입니다.'`
("unregistered warehouse code") — which does not quote the offending code
itself. -/
theorem initialStock_unregistered_warehouse {ProdVal : Type} (findSku : Str → Bool)
    (store : StockStore) (raw : RawRecord) (ln : ℕ)
    (hne : toUpperL (normalizeKey (getField raw (S "warehouse"))) ≠ [])
    (hnone : warehouseLookup (toUpperL (normalizeKey (getField raw (S "warehouse")))) = none) :
    (@parseInitialStockRow ProdVal findSku store raw ln).action = .error
    ∧ ∃ msgs,
        (@parseInitialStockRow ProdVal findSku store raw ln).messages = some msgs
        ∧ S "등록되지 않은 창고 코드입니다." ∈ msgs := by
  have hmem : S "등록되지 않은 창고 코드입니다." ∈ initialStockErrors findSku raw := by
    simp only [initialStockErrors, List.mem_append]
    refine Or.inl (Or.inl (Or.inl (Or.inr ?_)))
    rw [if_neg hne]
    simp [hnone]
  have herrne : initialStockErrors findSku raw ≠ [] := by
    intro h0
    rw [h0] at hmem
    simp at hmem
  have hrow : (@parseInitialStockRow ProdVal findSku store raw ln).action = .error
      ∧ (@parseInitialStockRow ProdVal findSku store raw ln).messages
        = some (initialStockErrors findSku raw) := by
    simp only [parseInitialStockRow]
    rw [if_pos herrne]
    exact ⟨rfl, rfl⟩
  exact ⟨hrow.1, initialStockErrors findSku raw, hrow.2, hmem⟩

/-- Witness for C8's amended statement: warehouse cell `'zzz9'` (unknown
code, non-empty after normalization). -/
theorem initialStock_unregistered_warehouse_witness :
    (@parseInitialStockRow Unit (fun _ => true) []
        [(S "sku", S "A"), (S "warehouse", S "zzz9"), (S "location", S "A-01"),
         (S "onHand", S "5")] 2).action = .error
    ∧ ∃ msgs,
        (@parseInitialStockRow Unit (fun _ => true) []
          [(S "sku", S "A"), (S "warehouse", S "zzz9"), (S "location", S "A-01"),
           (S "onHand", S "5")] 2).messages = some msgs
        ∧ S "등록되지 않은 창고 코드입니다." ∈ msgs :=
  @initialStock_unregistered_warehouse Unit (fun _ => true) []
    [(S "sku", S "A"), (S "warehouse", S "zzz9"), (S "location", S "A-01"),
     (S "onHand", S "5")] 2 (by decide) (by decide)

/-- Counterexample to C8 as stated: for the unregistered warehouse code
`ZZZ9` the row is an Error, but its single message is the fixed string
`'등록되지 않은 창고 코드입니다.'`, and no message contains the code `ZZZ9` —
the message does not name the unregistered warehouse code. -/
theorem initialStock_unregistered_warehouse_counterexample :
    (@parseInitialStockRow Unit (fun _ => true) []
        [(S "sku", S "A"), (S "warehouse", S "ZZZ9"), (S "location", S "A-01"),
         (S "onHand", S "5")] 2).action = .error
    ∧ (@parseInitialStockRow Unit (fun _ => true) []
        [(S "sku", S "A"), (S "warehouse", S "ZZZ9"), (S "location", S "A-01"),
         (S "onHand", S "5")] 2).messages = some [S "등록되지 않은 창고 코드입니다."]
    ∧ (∀ msgs, (@parseInitialStockRow Unit (fun _ => true) []
        [(S "sku", S "A"), (S "warehouse", S "ZZZ9"), (S "location", S "A-01"),
         (S "onHand", S "5")] 2).messages = some msgs →
        ∀ m ∈ msgs, containsSeg (S "ZZZ9") m = false) := by decide

/-! ## C10: case normalization of catalog codes -/

theorem initialStockRow_congr {ProdVal : Type} (findSku : Str → Bool) (store : StockStore)
    (raw raw' : RawRecord) (ln : ℕ)
    (h1 : getField raw' (S "sku") = getField raw (S "sku"))
    (h2 : toUpperL (normalizeKey (getField raw' (S "warehouse")))
        = toUpperL (normalizeKey (getField raw (S "warehouse"))))
    (h3 : toUpperL (normalizeKey (getField raw' (S "location")))
        = toUpperL (normalizeKey (getField raw (S "location"))))
    (h4 : getField raw' (S "onHand") = getField raw (S "onHand"))
    (h5 : getField raw' (S "reserved") = getField raw (S "reserved")) :
    (@parseInitialStockRow ProdVal findSku store raw' ln).action
      = (@parseInitialStockRow ProdVal findSku store raw ln).action
    ∧ (@parseInitialStockRow ProdVal findSku store raw' ln).messages
      = (@parseInitialStockRow ProdVal findSku store raw ln).messages
    ∧ (@parseInitialStockRow ProdVal findSku store raw' ln).payload
      = (@parseInitialStockRow ProdVal findSku store raw ln).payload := by
  have herr : initialStockErrors findSku raw' = initialStockErrors findSku raw := by
    simp only [initialStockErrors, h1, h2, h3, h4, h5]
  simp only [parseInitialStockRow, herr, h1, h2, h3, h4, h5]
  split <;> exact ⟨rfl, rfl, rfl⟩

set_option maxHeartbeats 1000000 in
theorem movementRow_congr {ProdVal : Type} (findSku : Str → Bool)
    (parseDate : Str → Option Str) (nowIso : Str) (raw raw' : RawRecord) (ln : ℕ)
    (h1 : getField raw' (S "sku") = getField raw (S "sku"))
    (h2 : toUpperL (normalizeKey (getField raw' (S "warehouse")))
        = toUpperL (normalizeKey (getField raw (S "warehouse"))))
    (h3 : toUpperL (normalizeKey (getField raw' (S "location")))
        = toUpperL (normalizeKey (getField raw (S "location"))))
    (h4 : toUpperL (normalizeKey (getField raw' (S "partner")))
        = toUpperL (normalizeKey (getField raw (S "partner"))))
    (h5 : getField raw' (S "quantity") = getField raw (S "quantity"))
    (h6 : getField raw' (S "type") = getField raw (S "type"))
    (h7 : getField raw' (S "reference") = getField raw (S "reference"))
    (h8 : getField raw' (S "occurredAt") = getField raw (S "occurredAt")) :
    (@parseMovementRow ProdVal findSku parseDate nowIso raw' ln).action
      = (@parseMovementRow ProdVal findSku parseDate nowIso raw ln).action
    ∧ (@parseMovementRow ProdVal findSku parseDate nowIso raw' ln).messages
      = (@parseMovementRow ProdVal findSku parseDate nowIso raw ln).messages
    ∧ (@parseMovementRow ProdVal findSku parseDate nowIso raw' ln).payload
      = (@parseMovementRow ProdVal findSku parseDate nowIso raw ln).payload := by
  have hty : movementTypeNorm raw' = movementTypeNorm raw := by
    simp only [movementTypeNorm, h6]
  have hocc : movementOccurred parseDate raw' = movementOccurred parseDate raw := by
    simp only [movementOccurred, h8]
  have herr : movementErrors findSku parseDate raw' = movementErrors findSku parseDate raw := by
    simp only [movementErrors, h1, h2, h3, h4, h5, hty, hocc]
  rcases htv : (movementTypeNorm raw).2 with _ | t
  · simp only [parseMovementRow, herr, hty, htv]
    first | trivial | (refine ⟨?_, ?_, ?_⟩ <;> trivial)
  · by_cases he : movementErrors findSku parseDate raw ≠ []
    · simp only [parseMovementRow, herr, hty, hocc, htv, if_pos he]
      first | trivial | (refine ⟨?_, ?_, ?_⟩ <;> trivial)
    · simp only [parseMovementRow, herr, hty, hocc, htv, if_neg he, h1, h2, h3, h4, h5, h7]
      first | trivial | (refine ⟨?_, ?_, ?_⟩ <;> trivial)

theorem initialStockRow_payload_normalized {ProdVal : Type} (findSku : Str → Bool)
    (store : StockStore) (raw : RawRecord) (ln : ℕ) (p : InitialStockPayload)
    (h : (@parseInitialStockRow ProdVal findSku store raw ln).payload
        = some (.initialStock p)) :
    p.sku = normalizeKey (getField raw (S "sku"))
    ∧ p.warehouse = toUpperL (normalizeKey (getField raw (S "warehouse")))
    ∧ p.location = toUpperL (normalizeKey (getField raw (S "location"))) := by
  revert h
  simp only [parseInitialStockRow]
  split
  · intro h
    simp at h
  · intro h
    simp only [Option.some.injEq, ParsedPayload.initialStock.injEq] at h
    subst h
    exact ⟨rfl, rfl, rfl⟩

theorem movementRow_payload_normalized {ProdVal : Type} (findSku : Str → Bool)
    (parseDate : Str → Option Str) (nowIso : Str) (raw : RawRecord) (ln : ℕ)
    (p : MovementPayload)
    (h : (@parseMovementRow ProdVal findSku parseDate nowIso raw ln).payload
        = some (.movement p)) :
    p.warehouse = toUpperL (normalizeKey (getField raw (S "warehouse")))
    ∧ p.location = toUpperL (normalizeKey (getField raw (S "location")))
    ∧ p.partner = toUpperL (normalizeKey (getField raw (S "partner"))) := by
  revert h
  simp only [parseMovementRow]
  split
  · intro h
    simp at h
  · split
    · intro h
      simp at h
    · intro h
      simp only [Option.some.injEq, ParsedPayload.movement.injEq] at h
      subst h
      exact ⟨rfl, rfl, rfl⟩

/-- C10: for `initial_stock` and `movements` rows the warehouse, location
and partner cells are upper-cased (after trimming) before the catalog
lookups and in the stored payload, so catalog codes match
case-insensitively: every produced payload records `toUpperL (trimL cell)`
for those fields, the classification depends on those cells only through
that normalization, and a warehouse cell `'icn1'` resolves to catalog entry
`ICN1` with the payload recording `'ICN1'`. -/
theorem catalog_case_normalization :
    (∀ (ProdVal : Type) (findSku : Str → Bool) (store : StockStore) (raw : RawRecord)
        (ln : ℕ) (p : InitialStockPayload),
      (@parseInitialStockRow ProdVal findSku store raw ln).payload
          = some (.initialStock p) →
        p.sku = normalizeKey (getField raw (S "sku"))
        ∧ p.warehouse = toUpperL (normalizeKey (getField raw (S "warehouse")))
        ∧ p.location = toUpperL (normalizeKey (getField raw (S "location"))))
    ∧ (∀ (ProdVal : Type) (findSku : Str → Bool) (parseDate : Str → Option Str)
        (nowIso : Str) (raw : RawRecord) (ln : ℕ) (p : MovementPayload),
      (@parseMovementRow ProdVal findSku parseDate nowIso raw ln).payload
          = some (.movement p) →
        p.warehouse = toUpperL (normalizeKey (getField raw (S "warehouse")))
        ∧ p.location = toUpperL (normalizeKey (getField raw (S "location")))
        ∧ p.partner = toUpperL (normalizeKey (getField raw (S "partner"))))
    ∧ (∀ (ProdVal : Type) (findSku : Str → Bool) (store : StockStore)
        (raw raw' : RawRecord) (ln : ℕ),
      getField raw' (S "sku") = getField raw (S "sku") →
      toUpperL (normalizeKey (getField raw' (S "warehouse")))
          = toUpperL (normalizeKey (getField raw (S "warehouse"))) →
      toUpperL (normalizeKey (getField raw' (S "location")))
          = toUpperL (normalizeKey (getField raw (S "location"))) →
      getField raw' (S "onHand") = getField raw (S "onHand") →
      getField raw' (S "reserved") = getField raw (S "reserved") →
        (@parseInitialStockRow ProdVal findSku store raw' ln).action
          = (@parseInitialStockRow ProdVal findSku store raw ln).action
        ∧ (@parseInitialStockRow ProdVal findSku store raw' ln).messages
          = (@parseInitialStockRow ProdVal findSku store raw ln).messages
        ∧ (@parseInitialStockRow ProdVal findSku store raw' ln).payload
          = (@parseInitialStockRow ProdVal findSku store raw ln).payload)
    ∧ (∀ (ProdVal : Type) (findSku : Str → Bool) (parseDate : Str → Option Str)
        (nowIso : Str) (raw raw' : RawRecord) (ln : ℕ),
      getField raw' (S "sku") = getField raw (S "sku") →
      toUpperL (normalizeKey (getField raw' (S "warehouse")))
          = toUpperL (normalizeKey (getField raw (S "warehouse"))) →
      toUpperL (normalizeKey (getField raw' (S "location")))
          = toUpperL (normalizeKey (getField raw (S "location"))) →
      toUpperL (normalizeKey (getField raw' (S "partner")))
          = toUpperL (normalizeKey (getField raw (S "partner"))) →
      getField raw' (S "quantity") = getField raw (S "quantity") →
      getField raw' (S "type") = getField raw (S "type") →
      getField raw' (S "reference") = getField raw (S "reference") →
      getField raw' (S "occurredAt") = getField raw (S "occurredAt") →
        (@parseMovementRow ProdVal findSku parseDate nowIso raw' ln).action
          = (@parseMovementRow ProdVal findSku parseDate nowIso raw ln).action
        ∧ (@parseMovementRow ProdVal findSku parseDate nowIso raw' ln).messages
          = (@parseMovementRow ProdVal findSku parseDate nowIso raw ln).messages
        ∧ (@parseMovementRow ProdVal findSku parseDate nowIso raw' ln).payload
          = (@parseMovementRow ProdVal findSku parseDate nowIso raw ln).payload)
    ∧ ((@parseInitialStockRow Unit (fun _ => true) []
          [(S "sku", S "A"), (S "warehouse", S "icn1"), (S "location", S "a-01"),
           (S "onHand", S "5")] 2).action = .create
        ∧ (@parseInitialStockRow Unit (fun _ => true) []
          [(S "sku", S "A"), (S "warehouse", S "icn1"), (S "location", S "a-01"),
           (S "onHand", S "5")] 2).payload
          = some (.initialStock
              { sku := S "A", warehouse := S "ICN1", location := S "A-01",
                onHand := 5, reserved := 0 })) :=
  ⟨fun ProdVal findSku store raw ln p h =>
      @initialStockRow_payload_normalized ProdVal findSku store raw ln p h,
    fun ProdVal findSku parseDate nowIso raw ln p h =>
      @movementRow_payload_normalized ProdVal findSku parseDate nowIso raw ln p h,
    fun ProdVal findSku store raw raw' ln h1 h2 h3 h4 h5 =>
      @initialStockRow_congr ProdVal findSku store raw raw' ln h1 h2 h3 h4 h5,
    fun ProdVal findSku parseDate nowIso raw raw' ln h1 h2 h3 h4 h5 h6 h7 h8 =>
      @movementRow_congr ProdVal findSku parseDate nowIso raw raw' ln
        h1 h2 h3 h4 h5 h6 h7 h8,
    by decide⟩

/-- Witness for C10: the case-insensitivity conjuncts applied at concrete
rows: the `'icn1'` row gives the same action, messages and payload as the
`'ICN1'` row, and its payload records the upper-cased codes. -/
theorem catalog_case_normalization_witness :
    ((@parseInitialStockRow Unit (fun _ => true) []
        [(S "sku", S "A"), (S "warehouse", S "icn1"), (S "location", S "a-01"),
         (S "onHand", S "5")] 2).action
      = (@parseInitialStockRow Unit (fun _ => true) []
        [(S "sku", S "A"), (S "warehouse", S "ICN1"), (S "location", S "A-01"),
         (S "onHand", S "5")] 2).action
    ∧ (@parseInitialStockRow Unit (fun _ => true) []
        [(S "sku", S "A"), (S "warehouse", S "icn1"), (S "location", S "a-01"),
         (S "onHand", S "5")] 2).messages
      = (@parseInitialStockRow Unit (fun _ => true) []
        [(S "sku", S "A"), (S "warehouse", S "ICN1"), (S "location", S "A-01"),
         (S "onHand", S "5")] 2).messages
    ∧ (@parseInitialStockRow Unit (fun _ => true) []
        [(S "sku", S "A"), (S "warehouse", S "icn1"), (S "location", S "a-01"),
         (S "onHand", S "5")] 2).payload
      = (@parseInitialStockRow Unit (fun _ => true) []
        [(S "sku", S "A"), (S "warehouse", S "ICN1"), (S "location", S "A-01"),
         (S "onHand", S "5")] 2).payload)
    ∧ (S "A" = normalizeKey (getField
          [(S "sku", S "A"), (S "warehouse", S "icn1"), (S "location", S "a-01"),
           (S "onHand", S "5")] (S "sku"))
      ∧ S "ICN1" = toUpperL (normalizeKey (getField
          [(S "sku", S "A"), (S "warehouse", S "icn1"), (S "location", S "a-01"),
           (S "onHand", S "5")] (S "warehouse")))
      ∧ S "A-01" = toUpperL (normalizeKey (getField
          [(S "sku", S "A"), (S "warehouse", S "icn1"), (S "location", S "a-01"),
           (S "onHand", S "5")] (S "location")))) :=
  ⟨catalog_case_normalization.2.2.1 Unit (fun _ => true) []
      [(S "sku", S "A"), (S "warehouse", S "ICN1"), (S "location", S "A-01"),
       (S "onHand", S "5")]
      [(S "sku", S "A"), (S "warehouse", S "icn1"), (S "location", S "a-01"),
       (S "onHand", S "5")] 2
      (by decide) (by decide) (by decide) (by decide) (by decide),
    catalog_case_normalization.1 Unit (fun _ => true) []
      [(S "sku", S "A"), (S "warehouse", S "icn1"), (S "location", S "a-01"),
       (S "onHand", S "5")] 2
      { sku := S "A", warehouse := S "ICN1", location := S "A-01",
        onHand := 5, reserved := 0 }
      (by decide)⟩

/-! ## Preview cache, commit protocol and the job queue

The module-level mutable state of the CSV routes module becomes an explicit
`ServerState`.  JavaScript `Map`s become association lists with unique keys.
The `setTimeout` callbacks of the job processor become explicit tasks held
in the state; a `Step` of the transition system either serves an upload
request (preview or commit, which run synchronously) or runs one pending
task picked nondeterministically — a sound over-approximation of the actual
timer ordering.  Exceptions thrown by the external store upserts during
`applyRow` are modelled by an oracle `oracle ty row`, returning the thrown
error message, or `none` when the apply succeeds; the product-store upsert
itself (`__upsertProduct`, products module, external collaborator) is an
abstract function.  The write-only `applied` field is a ghost log recording
every row handed to `applyRow`. -/

inductive JobStatus where
  | pending
  | processing
  | completed
  | failed
deriving DecidableEq, Repr

structure CsvJob (ProdVal : Type) where
  id : Str
  type : CsvUploadType
  status : JobStatus
  total : ℕ
  processed : ℕ
  summary : PreviewSummary
  columns : List Str
  rows : List (ParsedRow ProdVal)
  errors : List (ParsedRow ProdVal)
  createdAt : ℕ
  updatedAt : ℕ
deriving DecidableEq

structure PreviewCacheEntry (ProdVal : Type) where
  id : Str
  type : CsvUploadType
  columns : List Str
  rows : List (ParsedRow ProdVal)
  summary : PreviewSummary
  createdAt : ℕ
deriving DecidableEq

/-- The external stores mutated by `applyRow`. -/
structure Stores (ProdVal : Type) where
  products : List ProdVal
  initialStock : StockStore
  movementLog : List MovementPayload
deriving DecidableEq

/-- A pending `setTimeout` callback of the job processor. -/
inductive QTask where
  | processQueueTask
  | processNextTask (id : Str) (index : ℕ)
deriving DecidableEq, Repr

structure ServerState (ProdVal : Type) where
  previewCache : List (Str × PreviewCacheEntry ProdVal)
  jobStore : List (Str × CsvJob ProdVal)
  jobQueue : List Str
  activeJob : Option Str
  tasks : List QTask
  stores : Stores ProdVal
  applied : List (CsvUploadType × ParsedRow ProdVal)
deriving DecidableEq

/-- `map.get(k)` on an association list. -/
def alookup {α : Type} (l : List (Str × α)) (k : Str) : Option α :=
  (l.find? (fun p => p.1 == k)).map (fun p => p.2)

/-- `map.set(k, v)`: replace the binding of `k`, or append it. -/
def aset {α : Type} (l : List (Str × α)) (k : Str) (v : α) : List (Str × α) :=
  match l with
  | [] => [(k, v)]
  | (k', v') :: rest => if k' == k then (k, v) :: rest else (k', v') :: aset rest k v

/-- `map.delete(k)`. -/
def aerase {α : Type} (l : List (Str × α)) (k : Str) : List (Str × α) :=
  l.filter (fun p => !(p.1 == k))

/-- The empty server state (module load time). -/
def initState {ProdVal : Type} : ServerState ProdVal :=
  { previewCache := [], jobStore := [], jobQueue := [], activeJob := none, tasks := []
    stores := { products := [], initialStock := [], movementLog := [] }, applied := [] }

/-- `applyRow`: dispatch a non-error row's payload to the store for its
upload type. -/
def applyRow {ProdVal : Type} (upsert : ProdVal → List ProdVal → List ProdVal)
    (ty : CsvUploadType) (row : ParsedRow ProdVal) (st : Stores ProdVal) : Stores ProdVal :=
  if row.payload.isNone ∨ row.action = .error then st
  else
    match ty, row.payload with
    | .products, some (.product v) => { st with products := upsert v st.products }
    | .initial_stock, some (.initialStock p) =>
      { st with initialStock :=
          stockSet st.initialStock (buildStockKey p.sku p.warehouse p.location) p }
    | .movements, some (.movement m) => { st with movementLog := st.movementLog ++ [m] }
    | _, _ => st

/-- The `CsvJob` built by the commit branch from a consumed preview entry:
status `pending`, `errors` seeded with the preview's error rows. -/
def mkJob {ProdVal : Type} (jobId : Str) (ty : CsvUploadType)
    (entry : PreviewCacheEntry ProdVal) (now : ℕ) : CsvJob ProdVal :=
  { id := jobId, type := ty, status := .pending, total := entry.rows.length, processed := 0
    summary := entry.summary, columns := entry.columns, rows := entry.rows
    errors := entry.rows.filter (fun r => r.action == .error)
    createdAt := now, updatedAt := now }

/-- `processQueue`: return at once if a job is active; otherwise dequeue the
head of the FIFO queue, mark it processing and schedule its first
`processNext(0)` tick. -/
def processQueue {ProdVal : Type} (now : ℕ) (s : ServerState ProdVal) : ServerState ProdVal :=
  match s.activeJob with
  | some _ => s
  | none =>
    match s.jobQueue with
    | [] => s
    | id :: rest =>
      match alookup s.jobStore id with
      | none => s
      | some job =>
        { s with jobQueue := rest
                 activeJob := some id
                 jobStore := aset s.jobStore id { job with status := .processing, updatedAt := now }
                 tasks := s.tasks ++ [.processNextTask id 0] }

/-- `queueJob`: push the job, register it in the store and run
`processQueue` synchronously. -/
def queueJob {ProdVal : Type} (now : ℕ) (job : CsvJob ProdVal) (s : ServerState ProdVal) :
    ServerState ProdVal :=
  processQueue now
    { s with jobQueue := s.jobQueue ++ [job.id], jobStore := aset s.jobStore job.id job }

/-- The commit branch of `POST /upload`: reject an absent or unknown token
without touching anything; otherwise delete the entry (before the type
check!), reject on a type mismatch, else build the job and enqueue it. -/
def commitUpload {ProdVal : Type} (ty : CsvUploadType) (previewId : Option Str)
    (jobId : Str) (now : ℕ) (s : ServerState ProdVal) :
    ServerState ProdVal × Except Str (CsvJob ProdVal) :=
  match previewId with
  | none => (s, .error (S "유효하지 않은 previewId 입니다."))
  | some pid =>
    match alookup s.previewCache pid with
    | none => (s, .error (S "유효하지 않은 previewId 입니다."))
    | some entry =>
      let s1 := { s with previewCache := aerase s.previewCache pid }
      if entry.type ≠ ty then
        (s1, .error (S "요청한 type과 미리보기 유형이 일치하지 않습니다."))
      else
        let job := mkJob jobId ty entry now
        (queueJob now job s1, .ok job)

/-- One `processNext(index)` tick: a stale callback (job no longer active)
returns at once; past the last row the job completes, the active slot is
freed and a `processQueue` tick is scheduled; otherwise the row is applied
(unless it is an error row or has no payload), a thrown apply error —
`oracle` returning a message — is caught and recorded as one more entry in
`job.errors` keeping the row's raw cells, and the next tick is scheduled. -/
def runProcessNext {ProdVal : Type} (oracle : CsvUploadType → ParsedRow ProdVal → Option Str)
    (upsert : ProdVal → List ProdVal → List ProdVal) (now : ℕ) (id : Str) (i : ℕ)
    (s : ServerState ProdVal) : ServerState ProdVal :=
  if s.activeJob ≠ some id then s
  else
    match alookup s.jobStore id with
    | none => s
    | some job =>
      if job.rows.length ≤ i then
        { s with jobStore := aset s.jobStore id { job with status := .completed, updatedAt := now }
                 activeJob := none
                 tasks := s.tasks ++ [.processQueueTask] }
      else
        match job.rows[i]? with
        | none => s
        | some row =>
          let jobAfter : CsvJob ProdVal :=
            if row.action ≠ .error ∧ row.payload.isSome = true then
              match oracle job.type row with
              | some msg =>
                { job with errors :=
                    job.errors ++ [{ row with action := .error, messages := some [msg] }] }
              | none => job
            else job
          let storesAfter : Stores ProdVal :=
            if row.action ≠ .error ∧ row.payload.isSome = true then
              match oracle job.type row with
              | some _ => s.stores
              | none => applyRow upsert job.type row s.stores
            else s.stores
          let appliedAfter :=
            if row.action ≠ .error ∧ row.payload.isSome = true then
              s.applied ++ [(job.type, row)]
            else s.applied
          { s with
              jobStore := aset s.jobStore id { jobAfter with processed := i + 1, updatedAt := now }
              stores := storesAfter
              applied := appliedAfter
              tasks := s.tasks ++ [.processNextTask id (i + 1)] }

/-- Run one pending callback. -/
def runTask {ProdVal : Type} (oracle : CsvUploadType → ParsedRow ProdVal → Option Str)
    (upsert : ProdVal → List ProdVal → List ProdVal) (now : ℕ) (t : QTask)
    (s : ServerState ProdVal) : ServerState ProdVal :=
  match t with
  | .processQueueTask => processQueue now s
  | .processNextTask id i => runProcessNext oracle upsert now id i s

/-- One step of the server: a preview stores a fresh entry; a commit request
runs the commit branch with a fresh job id (`randomUUID`); or one pending
task runs (in arbitrary order, over-approximating the timer queue). -/
inductive Step {ProdVal : Type} (oracle : CsvUploadType → ParsedRow ProdVal → Option Str)
    (upsert : ProdVal → List ProdVal → List ProdVal) :
    ServerState ProdVal → ServerState ProdVal → Prop where
  | preview (s : ServerState ProdVal) (pid : Str) (entry : PreviewCacheEntry ProdVal)
      (hfresh : alookup s.previewCache pid = none) :
      Step oracle upsert s { s with previewCache := s.previewCache ++ [(pid, entry)] }
  | commitReq (s : ServerState ProdVal) (ty : CsvUploadType) (pid : Option Str)
      (jobId : Str) (now : ℕ) (hfresh : alookup s.jobStore jobId = none) :
      Step oracle upsert s (commitUpload ty pid jobId now s).1
  | task (s : ServerState ProdVal) (t : QTask) (pre post : List QTask) (now : ℕ)
      (hsplit : s.tasks = pre ++ t :: post) :
      Step oracle upsert s (runTask oracle upsert now t { s with tasks := pre ++ post })

/-- Reachability from the initial state. -/
def Reaches {ProdVal : Type} (oracle : CsvUploadType → ParsedRow ProdVal → Option Str)
    (upsert : ProdVal → List ProdVal → List ProdVal) :
    ServerState ProdVal → ServerState ProdVal → Prop :=
  Relation.ReflTransGen (Step oracle upsert)

/-! ### Association list lemmas -/

theorem alookup_cons {α : Type} (k0 : Str) (v0 : α) (rest : List (Str × α)) (k' : Str) :
    alookup ((k0, v0) :: rest) k' = if k0 = k' then some v0 else alookup rest k' := by
  by_cases h : k0 = k'
  · unfold alookup
    rw [List.find?_cons_of_pos _ (by simpa using h)]
    simp [h]
  · unfold alookup
    rw [List.find?_cons_of_neg _ (by simpa using h)]
    simp [h]

theorem aset_cons {α : Type} (k0 : Str) (v0 : α) (rest : List (Str × α)) (k : Str) (v : α) :
    aset ((k0, v0) :: rest) k v
      = if k0 = k then (k, v) :: rest else (k0, v0) :: aset rest k v := by
  by_cases h : k0 = k <;> simp [aset, h]

theorem aerase_cons {α : Type} (k0 : Str) (v0 : α) (rest : List (Str × α)) (k : Str) :
    aerase ((k0, v0) :: rest) k
      = if k0 = k then aerase rest k else (k0, v0) :: aerase rest k := by
  by_cases h : k0 = k <;> simp [aerase, List.filter_cons, h]

theorem alookup_aset {α : Type} (l : List (Str × α)) (k : Str) (v : α) (k' : Str) :
    alookup (aset l k v) k' = if k' = k then some v else alookup l k' := by
  induction l with
  | nil =>
    show alookup [(k, v)] k' = _
    rw [alookup_cons]
    by_cases h : k' = k
    · subst h
      simp
    · have h' : ¬k = k' := fun hc => h hc.symm
      rw [if_neg h', if_neg h]
  | cons p rest ih =>
    obtain ⟨k0, v0⟩ := p
    rw [aset_cons]
    by_cases h0 : k0 = k
    · subst h0
      rw [if_pos rfl, alookup_cons, alookup_cons]
      by_cases h : k0 = k'
      · subst h
        simp
      · have h' : ¬k' = k0 := fun hc => h hc.symm
        rw [if_neg h, if_neg h, if_neg h']
    · rw [if_neg h0, alookup_cons, alookup_cons, ih]
      by_cases h : k0 = k'
      · subst h
        have h' : ¬k0 = k := fun hc => h0 hc
        rw [if_pos rfl, if_pos rfl, if_neg h']
      · rw [if_neg h, if_neg h]

theorem alookup_aerase {α : Type} (l : List (Str × α)) (k : Str) (k' : Str) :
    alookup (aerase l k) k' = if k' = k then none else alookup l k' := by
  induction l with
  | nil =>
    by_cases h : k' = k <;> simp [alookup, aerase, h]
  | cons p rest ih =>
    obtain ⟨k0, v0⟩ := p
    rw [aerase_cons]
    by_cases h0 : k0 = k
    · subst h0
      rw [if_pos rfl, ih, alookup_cons]
      by_cases h : k' = k0
      · rw [if_pos h, if_pos h]
      · have h' : ¬k0 = k' := fun hc => h hc.symm
        rw [if_neg h, if_neg h, if_neg h']
    · rw [if_neg h0, alookup_cons, alookup_cons, ih]
      by_cases h : k0 = k'
      · subst h
        have h' : ¬k0 = k := fun hc => h0 hc
        rw [if_pos rfl, if_pos rfl, if_neg h']
      · rw [if_neg h, if_neg h]

theorem processQueue_fields {ProdVal : Type} (now : ℕ) (s : ServerState ProdVal) :
    (processQueue now s).previewCache = s.previewCache
    ∧ (processQueue now s).stores = s.stores
    ∧ (processQueue now s).applied = s.applied := by
  unfold processQueue
  split
  all_goals try split
  all_goals try split
  all_goals first | trivial | exact ⟨rfl, rfl, rfl⟩ | (refine ⟨?_, ?_, ?_⟩ <;> trivial)

theorem queueJob_spec {ProdVal : Type} (now : ℕ) (job : CsvJob ProdVal)
    (s : ServerState ProdVal) (hpending : job.status = .pending) :
    (queueJob now job s).previewCache = s.previewCache
    ∧ (queueJob now job s).stores = s.stores
    ∧ (queueJob now job s).applied = s.applied
    ∧ ∃ j : CsvJob ProdVal, alookup (queueJob now job s).jobStore job.id = some j
        ∧ j.rows = job.rows ∧ j.errors = job.errors
        ∧ ((j.status = .pending ∧ job.id ∈ (queueJob now job s).jobQueue)
           ∨ (j.status = .processing ∧ (queueJob now job s).activeJob = some job.id)) := by
  unfold queueJob
  refine ⟨(processQueue_fields now _).1, (processQueue_fields now _).2.1,
    (processQueue_fields now _).2.2, ?_⟩
  unfold processQueue
  split
  · refine ⟨job, ?_, rfl, rfl, Or.inl ⟨hpending, by simp⟩⟩
    show alookup (aset s.jobStore job.id job) job.id = some job
    rw [alookup_aset, if_pos rfl]
  · split
    · next heq =>
      exact absurd heq (by simp)
    · split
      · refine ⟨job, ?_, rfl, rfl, Or.inl ⟨hpending, by simp⟩⟩
        show alookup (aset s.jobStore job.id job) job.id = some job
        rw [alookup_aset, if_pos rfl]
      · next q0 tail hqeq _ojb jb hlkeq =>
        have hqeq' : s.jobQueue ++ [job.id] = q0 :: tail := hqeq
        have hlkeq' : alookup (aset s.jobStore job.id job) q0 = some jb := hlkeq
        by_cases hid : q0 = job.id
        · subst hid
          rw [alookup_aset, if_pos rfl] at hlkeq'
          cases hlkeq'
          refine ⟨{ job with status := .processing, updatedAt := now }, ?_, rfl, rfl,
            Or.inr ⟨rfl, rfl⟩⟩
          show alookup (aset (aset s.jobStore job.id job) job.id
              { job with status := .processing, updatedAt := now }) job.id = _
          rw [alookup_aset, if_pos rfl]
        · refine ⟨job, ?_, rfl, rfl, Or.inl ⟨hpending, ?_⟩⟩
          · show alookup (aset (aset s.jobStore job.id job) q0
                { jb with status := .processing, updatedAt := now }) job.id = _
            rw [alookup_aset, if_neg (fun hc => hid hc.symm), alookup_aset, if_pos rfl]
          · have hmem : job.id ∈ s.jobQueue ++ [job.id] := by simp
            rw [hqeq'] at hmem
            rcases List.mem_cons.mp hmem with hc | hc
            · exact absurd hc.symm hid
            · exact hc

/-- C1 (amended): a commit fails if the token is absent (never issued or
already consumed) or if the stored entry's upload type does not match the
requested type; a commit with an absent token mutates nothing; on success
the entry is removed and its rows are handed to a freshly enqueued pending
job; but a type-mismatched commit, while failing, also removes the
PreviewEntry (the source deletes the entry before checking the type), and
mutates nothing else. -/
theorem commitUpload_protocol {ProdVal : Type} (ty : CsvUploadType) (previewId : Option Str)
    (jobId : Str) (now : ℕ) (s : ServerState ProdVal) :
    ((previewId = none ∨ (∃ pid, previewId = some pid ∧ alookup s.previewCache pid = none)) →
      (commitUpload ty previewId jobId now s).1 = s
      ∧ ∃ msg, (commitUpload ty previewId jobId now s).2 = .error msg)
    ∧ (∀ pid entry, previewId = some pid → alookup s.previewCache pid = some entry →
        entry.type ≠ ty →
        (commitUpload ty previewId jobId now s).1
          = { s with previewCache := aerase s.previewCache pid }
        ∧ ∃ msg, (commitUpload ty previewId jobId now s).2 = .error msg)
    ∧ (∀ pid entry, previewId = some pid → alookup s.previewCache pid = some entry →
        entry.type = ty →
        (commitUpload ty previewId jobId now s).2 = .ok (mkJob jobId ty entry now)
        ∧ (commitUpload ty previewId jobId now s).1.previewCache = aerase s.previewCache pid
        ∧ (∃ j : CsvJob ProdVal,
            alookup (commitUpload ty previewId jobId now s).1.jobStore jobId = some j
            ∧ j.rows = entry.rows
            ∧ j.errors = entry.rows.filter (fun r => r.action == .error)
            ∧ ((j.status = .pending
                  ∧ jobId ∈ (commitUpload ty previewId jobId now s).1.jobQueue)
               ∨ (j.status = .processing
                  ∧ (commitUpload ty previewId jobId now s).1.activeJob = some jobId)))
        ∧ (commitUpload ty previewId jobId now s).1.stores = s.stores
        ∧ (commitUpload ty previewId jobId now s).1.applied = s.applied) := by
  refine ⟨?_, ?_, ?_⟩
  · rintro (hnone | ⟨pid, hpid, hnone⟩)
    · subst hnone
      exact ⟨by trivial, _, rfl⟩
    · subst hpid
      simp only [commitUpload, hnone]
      exact ⟨by trivial, _, rfl⟩
  · intro pid entry hpid hlk hne
    subst hpid
    simp only [commitUpload, hlk]
    rw [if_pos hne]
    exact ⟨by trivial, _, rfl⟩
  · intro pid entry hpid hlk hty
    subst hpid
    simp only [commitUpload, hlk]
    rw [if_neg (by simp [hty])]
    obtain ⟨hpc, hst, hap, j, hj, hrows, herrs, hdisj⟩ :=
      queueJob_spec now (mkJob jobId ty entry now)
        { s with previewCache := aerase s.previewCache pid } rfl
    exact ⟨rfl, hpc, ⟨j, hj, hrows, herrs, hdisj⟩, hst, hap⟩

instance {e a : Type} [DecidableEq e] [DecidableEq a] : DecidableEq (Except e a) :=
  fun x y =>
    match x, y with
    | .error x1, .error y1 =>
      if h : x1 = y1 then isTrue (h ▸ rfl)
      else isFalse (fun hc => by injection hc with h1; exact h h1)
    | .ok x1, .ok y1 =>
      if h : x1 = y1 then isTrue (h ▸ rfl)
      else isFalse (fun hc => by injection hc with h1; exact h h1)
    | .error _, .ok _ => isFalse (fun hc => Except.noConfusion hc)
    | .ok _, .error _ => isFalse (fun hc => Except.noConfusion hc)

/-- Counterexample to C1 as stated: committing with type `products` a token
whose stored entry has type `initial_stock` fails, yet the failed commit
removes the entry from the Preview Cache (the source deletes it before
checking the type), so the Preview Cache does not stay unchanged on this
failure. -/
theorem commitUpload_counterexample :
    (@commitUpload Unit CsvUploadType.products (some (S "p1")) (S "j1") 0
        { initState with previewCache :=
            [(S "p1", { id := S "p1", type := .initial_stock, columns := [], rows := []
                        summary := ⟨0, 0, 0, 0⟩, createdAt := 0 })] }).2
      = .error (S "요청한 type과 미리보기 유형이 일치하지 않습니다.")
    ∧ (@commitUpload Unit CsvUploadType.products (some (S "p1")) (S "j1") 0
        { initState with previewCache :=
            [(S "p1", { id := S "p1", type := .initial_stock, columns := [], rows := []
                        summary := ⟨0, 0, 0, 0⟩, createdAt := 0 })] }).1.previewCache = []
    ∧ alookup ({ initState with previewCache :=
            [(S "p1", { id := S "p1", type := .initial_stock, columns := [], rows := []
                        summary := ⟨0, 0, 0, 0⟩, createdAt := 0 })] }
          : ServerState Unit).previewCache (S "p1") ≠ none := by decide

/-- Witness for C1's amended statement: an absent token fails without
mutating anything; a matching commit consumes the entry and enqueues the
job. -/
theorem commitUpload_protocol_witness :
    ((@commitUpload Unit CsvUploadType.products none (S "j1") 0 initState).1
        = initState
      ∧ ∃ msg, (@commitUpload Unit CsvUploadType.products none (S "j1") 0
          initState).2 = .error msg)
    ∧ ((@commitUpload Unit CsvUploadType.initial_stock (some (S "p1")) (S "j1") 0
          { initState with previewCache :=
              [(S "p1", { id := S "p1", type := .initial_stock, columns := [], rows := []
                          summary := ⟨0, 0, 0, 0⟩, createdAt := 0 })] }).2
        = .ok (mkJob (S "j1") .initial_stock
            { id := S "p1", type := .initial_stock, columns := [], rows := []
              summary := ⟨0, 0, 0, 0⟩, createdAt := 0 } 0)) :=
  ⟨(@commitUpload_protocol Unit CsvUploadType.products none (S "j1") 0
      initState).1 (Or.inl rfl),
    ((@commitUpload_protocol Unit CsvUploadType.initial_stock (some (S "p1"))
        (S "j1") 0
        { initState with previewCache :=
            [(S "p1", { id := S "p1", type := .initial_stock, columns := [], rows := []
                        summary := ⟨0, 0, 0, 0⟩, createdAt := 0 })] }).2.2
      (S "p1")
      { id := S "p1", type := .initial_stock, columns := [], rows := []
        summary := ⟨0, 0, 0, 0⟩, createdAt := 0 }
      rfl (by decide) rfl).1⟩

/-! ### The global queue invariant -/

/-- The additional error entries produced at apply time for a list of rows:
one per non-error payload row on which the apply oracle throws, carrying the
row's raw cells and the single caught message. -/
def runtimeFailures {ProdVal : Type} (oracle : CsvUploadType → ParsedRow ProdVal → Option Str)
    (ty : CsvUploadType) (rows : List (ParsedRow ProdVal)) : List (ParsedRow ProdVal) :=
  rows.filterMap (fun r =>
    if r.action ≠ .error ∧ r.payload.isSome = true then
      (oracle ty r).map (fun m => { r with action := .error, messages := some [m] })
    else none)

/-- Per-job invariant maintained by the processor. -/
def JobInv {ProdVal : Type} (oracle : CsvUploadType → ParsedRow ProdVal → Option Str)
    (j : CsvJob ProdVal) : Prop :=
  j.total = j.rows.length
  ∧ j.processed ≤ j.rows.length
  ∧ j.errors = j.rows.filter (fun r => r.action == .error)
      ++ runtimeFailures oracle j.type (j.rows.take j.processed)
  ∧ j.status ≠ .failed
  ∧ (j.status = .pending → j.processed = 0)
  ∧ (j.status = .completed → j.processed = j.rows.length)

/-- The `processNext` callbacks currently scheduled for a given job id. -/
def tasksFor (id : Str) (tasks : List QTask) : List QTask :=
  tasks.filter (fun t =>
    match t with
    | .processNextTask id' _ => id' == id
    | _ => false)

/-- The global invariant of the commit/queue subsystem. -/
def QueueInv {ProdVal : Type} (oracle : CsvUploadType → ParsedRow ProdVal → Option Str)
    (s : ServerState ProdVal) : Prop :=
  (∀ id j, alookup s.jobStore id = some j → j.id = id ∧ JobInv oracle j)
  ∧ (∀ id ∈ s.jobQueue, ∃ j, alookup s.jobStore id = some j ∧ j.status = .pending)
  ∧ (∀ id j, alookup s.jobStore id = some j → j.status = .processing →
      s.activeJob = some id)
  ∧ (∀ id, s.activeJob = some id →
      ∃ j, alookup s.jobStore id = some j ∧ j.status = .processing
        ∧ tasksFor id s.tasks = [.processNextTask id j.processed])
  ∧ (∀ id, s.activeJob ≠ some id → tasksFor id s.tasks = [])
  ∧ (∀ e ∈ s.applied, e.2.action ≠ .error ∧ e.2.payload.isSome = true)
  ∧ s.jobQueue.Nodup

theorem tasksFor_append (id : Str) (ts1 ts2 : List QTask) :
    tasksFor id (ts1 ++ ts2) = tasksFor id ts1 ++ tasksFor id ts2 := by
  simp [tasksFor]

theorem tasksFor_processQueueTask (id : Str) :
    tasksFor id [QTask.processQueueTask] = [] := rfl

theorem tasksFor_processNext_self (id : Str) (i : ℕ) :
    tasksFor id [QTask.processNextTask id i] = [QTask.processNextTask id i] := by
  simp [tasksFor]

theorem tasksFor_processNext_other (id id' : Str) (i : ℕ) (h : id' ≠ id) :
    tasksFor id [QTask.processNextTask id' i] = [] := by
  simp [tasksFor, h]

theorem QueueInv_initState {ProdVal : Type}
    (oracle : CsvUploadType → ParsedRow ProdVal → Option Str) :
    QueueInv oracle (@initState ProdVal) := by
  refine ⟨?_, ?_, ?_, ?_, ?_, ?_, ?_⟩ <;> simp [initState, alookup, tasksFor]

theorem append_cons_eq_singleton {α : Type} {a b : List α} {x y : α}
    (h : a ++ x :: b = [y]) : a = [] ∧ b = [] ∧ x = y := by
  cases a with
  | nil =>
    simp only [List.nil_append, List.cons.injEq] at h
    exact ⟨rfl, h.2, h.1⟩
  | cons a0 as =>
    simp only [List.cons_append, List.cons.injEq] at h
    exact absurd h.2 (by simp)

theorem processQueue_inv {ProdVal : Type}
    (oracle : CsvUploadType → ParsedRow ProdVal → Option Str) (now : ℕ)
    (s : ServerState ProdVal) (hInv : QueueInv oracle s) :
    QueueInv oracle (processQueue now s) := by
  obtain ⟨hI1, hI2, hI3, hI4, hI5, hI6, hI7⟩ := hInv
  rcases hact : s.activeJob with _ | aid
  · rcases hq : s.jobQueue with _ | ⟨id, rest⟩
    · simp only [processQueue, hact, hq]
      exact ⟨hI1, hI2, hI3, hI4, hI5, hI6, hI7⟩
    · rcases hlk : alookup s.jobStore id with _ | job
      · simp only [processQueue, hact, hq, hlk]
        exact ⟨hI1, hI2, hI3, hI4, hI5, hI6, hI7⟩
      · simp only [processQueue, hact, hq, hlk]
        obtain ⟨hjid, hjinv⟩ := hI1 id job hlk
        have hpend : job.status = .pending := by
          obtain ⟨j0, hj0, hstat⟩ := hI2 id (by rw [hq]; simp)
          rw [hlk] at hj0
          cases hj0
          exact hstat
        have hproc0 : job.processed = 0 := hjinv.2.2.2.2.1 hpend
        have hnodup := hI7
        rw [hq] at hnodup
        refine ⟨?_, ?_, ?_, ?_, ?_, hI6, ?_⟩
        · intro id0 j0 hlk0
          rw [alookup_aset] at hlk0
          by_cases hid : id0 = id
          · subst hid
            rw [if_pos rfl] at hlk0
            cases hlk0
            refine ⟨hjid, hjinv.1, hjinv.2.1, hjinv.2.2.1, by simp,
              fun hc => by simp at hc, fun hc => by simp at hc⟩
          · rw [if_neg hid] at hlk0
            exact hI1 id0 j0 hlk0
        · intro id0 hid0
          have hne : id0 ≠ id := by
            intro hc
            subst hc
            exact (List.nodup_cons.mp hnodup).1 hid0
          obtain ⟨j0, hj0, hstat⟩ := hI2 id0 (by rw [hq]; simp [hid0])
          exact ⟨j0, by rw [alookup_aset, if_neg hne]; exact hj0, hstat⟩
        · intro id0 j0 hlk0 hstat
          rw [alookup_aset] at hlk0
          by_cases hid : id0 = id
          · subst hid
            rfl
          · rw [if_neg hid] at hlk0
            have := hI3 id0 j0 hlk0 hstat
            rw [hact] at this
            cases this
        · intro id0 hid0
          cases hid0
          refine ⟨{ job with status := .processing, updatedAt := now },
            by rw [alookup_aset, if_pos rfl], rfl, ?_⟩
          rw [tasksFor_append, tasksFor_processNext_self]
          rw [show tasksFor id s.tasks = [] from hI5 id (by rw [hact]; simp)]
          simp [hproc0]
        · intro id0 hid0
          have hne : id ≠ id0 := by
            intro hc
            subst hc
            exact hid0 rfl
          rw [tasksFor_append, tasksFor_processNext_other id0 id 0 hne]
          rw [show tasksFor id0 s.tasks = [] from hI5 id0 (by rw [hact]; simp)]
          rfl
        · exact (List.nodup_cons.mp hnodup).2
  · simp only [processQueue, hact]
    exact ⟨hI1, hI2, hI3, hI4, hI5, hI6, hI7⟩

theorem enqueue_inv {ProdVal : Type}
    (oracle : CsvUploadType → ParsedRow ProdVal → Option Str)
    (s : ServerState ProdVal) (jobId : Str) (ty : CsvUploadType)
    (entry : PreviewCacheEntry ProdVal) (now : ℕ)
    (hInv : QueueInv oracle s) (hfresh : alookup s.jobStore jobId = none) :
    QueueInv oracle
      { s with jobQueue := s.jobQueue ++ [jobId]
               jobStore := aset s.jobStore jobId (mkJob jobId ty entry now) } := by
  obtain ⟨hI1, hI2, hI3, hI4, hI5, hI6, hI7⟩ := hInv
  have hnotmem : jobId ∉ s.jobQueue := by
    intro hmem
    obtain ⟨j0, hj0, _⟩ := hI2 jobId hmem
    rw [hfresh] at hj0
    cases hj0
  refine ⟨?_, ?_, ?_, ?_, hI5, hI6, ?_⟩
  · intro id0 j0 hlk0
    rw [alookup_aset] at hlk0
    by_cases hid : id0 = jobId
    · subst hid
      rw [if_pos rfl] at hlk0
      cases hlk0
      refine ⟨rfl, rfl, by simp [mkJob], ?_, by simp [mkJob],
        fun _ => rfl, fun hc => by simp [mkJob] at hc⟩
      simp [mkJob, runtimeFailures]
    · rw [if_neg hid] at hlk0
      exact hI1 id0 j0 hlk0
  · intro id0 hid0
    rw [List.mem_append] at hid0
    rcases hid0 with hold | hnew
    · have hne : id0 ≠ jobId := by
        intro hc
        subst hc
        exact hnotmem hold
      obtain ⟨j0, hj0, hstat⟩ := hI2 id0 hold
      exact ⟨j0, by rw [alookup_aset, if_neg hne]; exact hj0, hstat⟩
    · rw [List.mem_singleton] at hnew
      subst hnew
      exact ⟨mkJob id0 ty entry now, by rw [alookup_aset, if_pos rfl], rfl⟩
  · intro id0 j0 hlk0 hstat
    rw [alookup_aset] at hlk0
    by_cases hid : id0 = jobId
    · subst hid
      rw [if_pos rfl] at hlk0
      cases hlk0
      simp [mkJob] at hstat
    · rw [if_neg hid] at hlk0
      exact hI3 id0 j0 hlk0 hstat
  · intro id0 hid0
    obtain ⟨j0, hj0, hstat, htasks⟩ := hI4 id0 hid0
    have hne : id0 ≠ jobId := by
      intro hc
      subst hc
      rw [hfresh] at hj0
      cases hj0
    exact ⟨j0, by rw [alookup_aset, if_neg hne]; exact hj0, hstat, htasks⟩
  · rw [List.nodup_append]
    exact ⟨hI7, List.nodup_singleton _,
      fun a ha hc => hnotmem (by rwa [List.mem_singleton.mp hc] at ha)⟩

theorem commitUpload_inv {ProdVal : Type}
    (oracle : CsvUploadType → ParsedRow ProdVal → Option Str)
    (ty : CsvUploadType) (pid : Option Str) (jobId : Str) (now : ℕ)
    (s : ServerState ProdVal) (hInv : QueueInv oracle s)
    (hfresh : alookup s.jobStore jobId = none) :
    QueueInv oracle (commitUpload ty pid jobId now s).1 := by
  rcases pid with _ | pv
  · exact hInv
  · rcases hce : alookup s.previewCache pv with _ | entry
    · simp only [commitUpload, hce]
      exact hInv
    · simp only [commitUpload, hce]
      by_cases hty : entry.type ≠ ty
      · rw [if_pos hty]
        exact hInv
      · rw [if_neg hty]
        refine processQueue_inv oracle now _ ?_
        exact enqueue_inv oracle _ jobId ty entry now hInv hfresh

theorem tasksFor_cons_pq (id : Str) (ts : List QTask) :
    tasksFor id (QTask.processQueueTask :: ts) = tasksFor id ts := by
  simp [tasksFor]

theorem tasksFor_cons_self (id : Str) (i : ℕ) (ts : List QTask) :
    tasksFor id (QTask.processNextTask id i :: ts) =
      QTask.processNextTask id i :: tasksFor id ts := by
  simp [tasksFor]

theorem tasksFor_cons_other (id id' : Str) (i : ℕ) (ts : List QTask) (h : id' ≠ id) :
    tasksFor id (QTask.processNextTask id' i :: ts) = tasksFor id ts := by
  simp [tasksFor, h]

theorem runtimeFailures_append {ProdVal : Type}
    (oracle : CsvUploadType → ParsedRow ProdVal → Option Str) (ty : CsvUploadType)
    (a b : List (ParsedRow ProdVal)) :
    runtimeFailures oracle ty (a ++ b) =
      runtimeFailures oracle ty a ++ runtimeFailures oracle ty b := by
  simp [runtimeFailures]

theorem task_inv {ProdVal : Type}
    (oracle : CsvUploadType → ParsedRow ProdVal → Option Str)
    (upsert : ProdVal → List ProdVal → List ProdVal) (now : ℕ) (t : QTask)
    (pre post : List QTask) (s : ServerState ProdVal)
    (hInv : QueueInv oracle s) (hsplit : s.tasks = pre ++ t :: post) :
    QueueInv oracle (runTask oracle upsert now t { s with tasks := pre ++ post }) := by
  obtain ⟨hI1, hI2, hI3, hI4, hI5, hI6, hI7⟩ := hInv
  rcases t with _ | ⟨tid, i⟩
  · have htf : ∀ id0, tasksFor id0 (pre ++ post) = tasksFor id0 s.tasks := by
      intro id0
      rw [hsplit, tasksFor_append, tasksFor_append, tasksFor_cons_pq]
    refine processQueue_inv oracle now _ ⟨hI1, hI2, hI3, ?_, ?_, hI6, hI7⟩
    · intro id0 hid0
      obtain ⟨j0, hj0, hstat, htk⟩ := hI4 id0 hid0
      exact ⟨j0, hj0, hstat, (htf id0).trans htk⟩
    · intro id0 hid0
      exact (htf id0).trans (hI5 id0 hid0)
  · have hact : s.activeJob = some tid := by
      by_contra hne
      have h0 := hI5 tid hne
      rw [hsplit, tasksFor_append, tasksFor_cons_self] at h0
      simp at h0
    obtain ⟨j, hj, hstat, htasks⟩ := hI4 tid hact
    obtain ⟨hjid, hjinv⟩ := hI1 tid j hj
    rw [hsplit, tasksFor_append, tasksFor_cons_self] at htasks
    obtain ⟨hpre0, hpost0, heqt⟩ := append_cons_eq_singleton htasks
    have hi : i = j.processed := by
      injection heqt with h1 h2
    have htid0 : tasksFor tid (pre ++ post) = [] := by
      rw [tasksFor_append, hpre0, hpost0]
      rfl
    have hother0 : ∀ id0, id0 ≠ tid → tasksFor id0 (pre ++ post) = [] := by
      intro id0 hne
      have h0 := hI5 id0 (by rw [hact]; exact fun hc => hne (Option.some.inj hc).symm)
      rw [hsplit, tasksFor_append, tasksFor_cons_other id0 tid i post (Ne.symm hne)] at h0
      rw [tasksFor_append]
      exact h0
    have hqueue_ne : ∀ id0 ∈ s.jobQueue, id0 ≠ tid := by
      intro id0 hmem hc
      subst hc
      obtain ⟨j0, hj0, hp⟩ := hI2 id0 hmem
      rw [hj] at hj0
      cases hj0
      rw [hstat] at hp
      cases hp
    have hjmid : alookup ({ s with tasks := pre ++ post } :
        ServerState ProdVal).jobStore tid = some j := hj
    by_cases hle : j.rows.length ≤ i
    · have hproc : j.processed = j.rows.length := by
        rw [hi] at hle
        exact le_antisymm hjinv.2.1 hle
      have heq : runTask oracle upsert now (QTask.processNextTask tid i)
          { s with tasks := pre ++ post } =
          { s with
              jobStore := aset s.jobStore tid
                { j with status := .completed, updatedAt := now }
              activeJob := none
              tasks := (pre ++ post) ++ [QTask.processQueueTask] } := by
        simp only [runTask, runProcessNext, hact, hjmid, hle, ne_eq,
          not_true_eq_false, if_false, if_true, ite_true, ite_false]
      rw [heq]
      refine ⟨?_, ?_, ?_, ?_, ?_, hI6, hI7⟩
      · intro id0 j0 hlk0
        simp only [] at hlk0
        rw [alookup_aset] at hlk0
        by_cases hid : id0 = tid
        · subst hid
          rw [if_pos rfl] at hlk0
          cases hlk0
          exact ⟨hjid, hjinv.1, hjinv.2.1, hjinv.2.2.1, by simp,
            fun hc => by simp at hc, fun _ => hproc⟩
        · rw [if_neg hid] at hlk0
          exact hI1 id0 j0 hlk0
      · intro id0 hmem
        simp only [] at hmem ⊢
        obtain ⟨j0, hj0, hp⟩ := hI2 id0 hmem
        refine ⟨j0, ?_, hp⟩
        rw [alookup_aset, if_neg (hqueue_ne id0 hmem)]
        exact hj0
      · intro id0 j0 hlk0 hstat0
        simp only [] at hlk0 hstat0 ⊢
        rw [alookup_aset] at hlk0
        by_cases hid : id0 = tid
        · subst hid
          rw [if_pos rfl] at hlk0
          cases hlk0
          simp at hstat0
        · rw [if_neg hid] at hlk0
          have h2 := hI3 id0 j0 hlk0 hstat0
          rw [hact] at h2
          exact ((hid (Option.some.inj h2).symm).elim)
      · intro id0 h0
        simp only [] at h0
        cases h0
      · intro id0 _
        simp only []
        rw [tasksFor_append, tasksFor_processQueueTask]
        by_cases hid : id0 = tid
        · subst hid
          rw [htid0]
          rfl
        · rw [hother0 id0 hid]
          rfl
    · have hlt : i < j.rows.length := Nat.lt_of_not_le hle
      rcases hrow : j.rows[i]? with _ | row
      · rw [List.getElem?_eq_none_iff] at hrow
        exact absurd hrow hle
      · have herr := hjinv.2.2.1
        have htake : j.rows.take (i + 1) = j.rows.take i ++ [row] := by
          rw [List.take_succ, hrow]
          rfl
        have hIother : ∀ id0 j0, id0 ≠ tid → alookup s.jobStore id0 = some j0 →
            j0.status = .processing → False := by
          intro id0 j0 hne hlk0 hstat0
          have h2 := hI3 id0 j0 hlk0 hstat0
          rw [hact] at h2
          exact hne (Option.some.inj h2).symm
        by_cases hc : row.action ≠ CsvRowAction.error ∧ row.payload.isSome = true
        · rcases horacle : oracle j.type row with _ | msg
          · -- apply succeeds: stores updated, row recorded in applied log
            have heq : runTask oracle upsert now (QTask.processNextTask tid i)
                { s with tasks := pre ++ post } =
                { s with
                    jobStore := aset s.jobStore tid
                      { j with processed := i + 1, updatedAt := now }
                    stores := applyRow upsert j.type row s.stores
                    applied := s.applied ++ [(j.type, row)]
                    tasks := (pre ++ post) ++ [QTask.processNextTask tid (i + 1)] } := by
              simp only [runTask, runProcessNext, hact, hjmid, hle, hrow, hc, horacle,
                ne_eq, not_true_eq_false, not_false_eq_true, and_self, if_false, if_true,
                ite_true, ite_false]
            rw [heq]
            refine ⟨?_, ?_, ?_, ?_, ?_, ?_, hI7⟩
            · intro id0 j0 hlk0
              simp only [] at hlk0
              rw [alookup_aset] at hlk0
              by_cases hid : id0 = tid
              · subst hid
                rw [if_pos rfl] at hlk0
                cases hlk0
                refine ⟨hjid, hjinv.1, hlt, ?_, hjinv.2.2.2.1, ?_, ?_⟩
                · simp only []
                  rw [herr, htake, hi, runtimeFailures_append]
                  have h1 : runtimeFailures oracle j.type [row] = [] := by
                    simp [runtimeFailures, hc, horacle]
                  rw [h1, List.append_nil]
                · intro hp
                  exact absurd (hstat.symm.trans hp) (by simp)
                · intro hp
                  exact absurd (hstat.symm.trans hp) (by simp)
              · rw [if_neg hid] at hlk0
                exact hI1 id0 j0 hlk0
            · intro id0 hmem
              simp only [] at hmem ⊢
              obtain ⟨j0, hj0, hp⟩ := hI2 id0 hmem
              refine ⟨j0, ?_, hp⟩
              rw [alookup_aset, if_neg (hqueue_ne id0 hmem)]
              exact hj0
            · intro id0 j0 hlk0 hstat0
              simp only [] at hlk0 hstat0 ⊢
              rw [alookup_aset] at hlk0
              by_cases hid : id0 = tid
              · subst hid
                exact hact
              · rw [if_neg hid] at hlk0
                exact (hIother id0 j0 hid hlk0 hstat0).elim
            · intro id0 h0
              simp only [] at h0 ⊢
              rw [hact] at h0
              cases Option.some.inj h0
              refine ⟨{ j with processed := i + 1, updatedAt := now },
                by rw [alookup_aset, if_pos rfl], hstat, ?_⟩
              rw [tasksFor_append, htid0, tasksFor_processNext_self]
              rfl
            · intro id0 h0
              simp only [] at h0 ⊢
              rw [hact] at h0
              have hne : id0 ≠ tid := fun hc2 => h0 (by rw [hc2])
              rw [tasksFor_append, hother0 id0 hne,
                tasksFor_processNext_other id0 tid (i + 1) (Ne.symm hne)]
              rfl
            · intro e hmem
              simp only [] at hmem
              rw [List.mem_append] at hmem
              rcases hmem with h1 | h2
              · exact hI6 e h1
              · rw [List.mem_singleton] at h2
                subst h2
                exact ⟨hc.1, hc.2⟩
          · -- apply throws: error recorded, stores untouched
            have heq : runTask oracle upsert now (QTask.processNextTask tid i)
                { s with tasks := pre ++ post } =
                { s with
                    jobStore := aset s.jobStore tid
                      { j with
                          errors := j.errors ++
                            [{ row with action := .error, messages := some [msg] }]
                          processed := i + 1, updatedAt := now }
                    applied := s.applied ++ [(j.type, row)]
                    tasks := (pre ++ post) ++ [QTask.processNextTask tid (i + 1)] } := by
              simp only [runTask, runProcessNext, hact, hjmid, hle, hrow, hc, horacle,
                ne_eq, not_true_eq_false, not_false_eq_true, and_self, if_false, if_true,
                ite_true, ite_false]
            rw [heq]
            refine ⟨?_, ?_, ?_, ?_, ?_, ?_, hI7⟩
            · intro id0 j0 hlk0
              simp only [] at hlk0
              rw [alookup_aset] at hlk0
              by_cases hid : id0 = tid
              · subst hid
                rw [if_pos rfl] at hlk0
                cases hlk0
                refine ⟨hjid, hjinv.1, hlt, ?_, hjinv.2.2.2.1, ?_, ?_⟩
                · simp only []
                  rw [herr, htake, hi, runtimeFailures_append]
                  have h1 : runtimeFailures oracle j.type [row] =
                      [{ row with action := .error, messages := some [msg] }] := by
                    simp [runtimeFailures, hc, horacle]
                  rw [h1, List.append_assoc]
                · intro hp
                  exact absurd (hstat.symm.trans hp) (by simp)
                · intro hp
                  exact absurd (hstat.symm.trans hp) (by simp)
              · rw [if_neg hid] at hlk0
                exact hI1 id0 j0 hlk0
            · intro id0 hmem
              simp only [] at hmem ⊢
              obtain ⟨j0, hj0, hp⟩ := hI2 id0 hmem
              refine ⟨j0, ?_, hp⟩
              rw [alookup_aset, if_neg (hqueue_ne id0 hmem)]
              exact hj0
            · intro id0 j0 hlk0 hstat0
              simp only [] at hlk0 hstat0 ⊢
              rw [alookup_aset] at hlk0
              by_cases hid : id0 = tid
              · subst hid
                exact hact
              · rw [if_neg hid] at hlk0
                exact (hIother id0 j0 hid hlk0 hstat0).elim
            · intro id0 h0
              simp only [] at h0 ⊢
              rw [hact] at h0
              cases Option.some.inj h0
              refine ⟨{ j with
                  errors := j.errors ++
                    [{ row with action := .error, messages := some [msg] }]
                  processed := i + 1, updatedAt := now },
                by rw [alookup_aset, if_pos rfl], hstat, ?_⟩
              rw [tasksFor_append, htid0, tasksFor_processNext_self]
              rfl
            · intro id0 h0
              simp only [] at h0 ⊢
              rw [hact] at h0
              have hne : id0 ≠ tid := fun hc2 => h0 (by rw [hc2])
              rw [tasksFor_append, hother0 id0 hne,
                tasksFor_processNext_other id0 tid (i + 1) (Ne.symm hne)]
              rfl
            · intro e hmem
              simp only [] at hmem
              rw [List.mem_append] at hmem
              rcases hmem with h1 | h2
              · exact hI6 e h1
              · rw [List.mem_singleton] at h2
                subst h2
                exact ⟨hc.1, hc.2⟩
        · -- error or payload-less row: skipped entirely
          have heq : runTask oracle upsert now (QTask.processNextTask tid i)
              { s with tasks := pre ++ post } =
              { s with
                  jobStore := aset s.jobStore tid
                    { j with processed := i + 1, updatedAt := now }
                  tasks := (pre ++ post) ++ [QTask.processNextTask tid (i + 1)] } := by
            simp only [runTask, runProcessNext, hact, hjmid, hle, hrow, hc,
              ne_eq, not_true_eq_false, not_false_eq_true, if_false, if_true,
              ite_true, ite_false]
          rw [heq]
          refine ⟨?_, ?_, ?_, ?_, ?_, hI6, hI7⟩
          · intro id0 j0 hlk0
            simp only [] at hlk0
            rw [alookup_aset] at hlk0
            by_cases hid : id0 = tid
            · subst hid
              rw [if_pos rfl] at hlk0
              cases hlk0
              refine ⟨hjid, hjinv.1, hlt, ?_, hjinv.2.2.2.1, ?_, ?_⟩
              · simp only []
                rw [herr, htake, hi, runtimeFailures_append]
                have h1 : runtimeFailures oracle j.type [row] = [] := by
                  simp [runtimeFailures, hc]
                rw [h1, List.append_nil]
              · intro hp
                exact absurd (hstat.symm.trans hp) (by simp)
              · intro hp
                exact absurd (hstat.symm.trans hp) (by simp)
            · rw [if_neg hid] at hlk0
              exact hI1 id0 j0 hlk0
          · intro id0 hmem
            simp only [] at hmem ⊢
            obtain ⟨j0, hj0, hp⟩ := hI2 id0 hmem
            refine ⟨j0, ?_, hp⟩
            rw [alookup_aset, if_neg (hqueue_ne id0 hmem)]
            exact hj0
          · intro id0 j0 hlk0 hstat0
            simp only [] at hlk0 hstat0 ⊢
            rw [alookup_aset] at hlk0
            by_cases hid : id0 = tid
            · subst hid
              exact hact
            · rw [if_neg hid] at hlk0
              exact (hIother id0 j0 hid hlk0 hstat0).elim
          · intro id0 h0
            simp only [] at h0 ⊢
            rw [hact] at h0
            cases Option.some.inj h0
            refine ⟨{ j with processed := i + 1, updatedAt := now },
              by rw [alookup_aset, if_pos rfl], hstat, ?_⟩
            rw [tasksFor_append, htid0, tasksFor_processNext_self]
            rfl
          · intro id0 h0
            simp only [] at h0 ⊢
            rw [hact] at h0
            have hne : id0 ≠ tid := fun hc2 => h0 (by rw [hc2])
            rw [tasksFor_append, hother0 id0 hne,
              tasksFor_processNext_other id0 tid (i + 1) (Ne.symm hne)]
            rfl

theorem step_inv {ProdVal : Type}
    (oracle : CsvUploadType → ParsedRow ProdVal → Option Str)
    (upsert : ProdVal → List ProdVal → List ProdVal)
    {s s' : ServerState ProdVal}
    (hInv : QueueInv oracle s) (hstep : Step oracle upsert s s') :
    QueueInv oracle s' := by
  cases hstep with
  | preview pid entry hfresh => exact hInv
  | commitReq ty pid jobId now hfresh =>
    exact commitUpload_inv oracle ty pid jobId now s hInv hfresh
  | task t pre post now hsplit =>
    exact task_inv oracle upsert now t pre post s hInv hsplit

theorem reaches_inv {ProdVal : Type}
    (oracle : CsvUploadType → ParsedRow ProdVal → Option Str)
    (upsert : ProdVal → List ProdVal → List ProdVal)
    {s s' : ServerState ProdVal}
    (h : Reaches oracle upsert s s') (hInv : QueueInv oracle s) :
    QueueInv oracle s' := by
  induction h with
  | refl => exact hInv
  | tail hab hbc ih => exact step_inv oracle upsert ih hbc

/-! ### Concrete scenarios for the queue claims -/

/-- An oracle under which every apply succeeds. -/
def oracle0 : CsvUploadType → ParsedRow Unit → Option Str := fun _ _ => none

/-- An oracle under which every apply throws. -/
def oracleF : CsvUploadType → ParsedRow Unit → Option Str := fun _ _ => some (S "DB down")

def upsert0 : Unit → List Unit → List Unit := fun v l => v :: l

def sampleRow : ParsedRow Unit :=
  { index := 1, lineNumber := 2, action := .create, raw := [(S "sku", S "A-1")]
    messages := none, payload := some (.product ()) }

def sampleSummary : PreviewSummary :=
  { total := 1, newCount := 1, updateCount := 0, errorCount := 0 }

def sampleEntry : PreviewCacheEntry Unit :=
  { id := S "p1", type := .products, columns := [S "sku"], rows := [sampleRow]
    summary := sampleSummary, createdAt := 0 }

def sampleJob : CsvJob Unit := mkJob (S "j1") .products sampleEntry 0

def sampleJob2 : CsvJob Unit := { mkJob (S "j2") .products sampleEntry 0 with status := .processing }

def sampleJ1After : CsvJob Unit :=
  { mkJob (S "j1") .products sampleEntry 0 with status := .processing }

/-- An idle server with one pending job queued. -/
def sampleIdle : ServerState Unit :=
  { initState with jobQueue := [S "j1"], jobStore := [(S "j1", sampleJob)] }

/-- A server with an active job past its last row. -/
def sampleActive : ServerState Unit :=
  { initState with
      activeJob := some (S "j2")
      jobStore := [(S "j2", sampleJob2)]
      tasks := [QTask.processNextTask (S "j2") 1] }

/-- A server with an active job about to apply its first row. -/
def sampleProcessing : ServerState Unit :=
  { initState with
      activeJob := some (S "j2")
      jobStore := [(S "j2", sampleJob2)]
      tasks := [QTask.processNextTask (S "j2") 0] }

/-- Two previews and two back-to-back commits from the initial state. -/
def sPrev1 : ServerState Unit :=
  { initState with previewCache := initState.previewCache ++ [(S "p1", sampleEntry)] }

def sCommit1 : ServerState Unit :=
  (commitUpload .products (some (S "p1")) (S "j1") 0 sPrev1).1

def sPrev2 : ServerState Unit :=
  { sCommit1 with previewCache := sCommit1.previewCache ++ [(S "p2", sampleEntry)] }

def sCommit2 : ServerState Unit :=
  (commitUpload .products (some (S "p2")) (S "j2") 1 sPrev2).1

theorem reach_two_commits : Reaches oracle0 upsert0 initState sCommit2 :=
  Relation.ReflTransGen.tail
    (Relation.ReflTransGen.tail
      (Relation.ReflTransGen.tail
        (Relation.ReflTransGen.tail Relation.ReflTransGen.refl
          (Step.preview initState (S "p1") sampleEntry (by decide)))
        (Step.commitReq sPrev1 .products (some (S "p1")) (S "j1") 0 (by decide)))
      (Step.preview sCommit1 (S "p2") sampleEntry (by decide)))
    (Step.commitReq sPrev2 .products (some (S "p2")) (S "j2") 1 (by decide))

/-- C2: the job pipeline is single-flight. In every server state reachable
from `initState`, at most one stored job is `processing`, and every job id
still waiting in the FIFO `jobQueue` maps to a stored job whose status is
`pending` — so the second of two back-to-back commits stays `pending`
while the first is running. Moreover `mkJob` creates every committed job
as `pending`; `processQueue` is a no-op while a job is active and, once
the active slot is free, dequeues exactly the queue head, marks it
`processing` and schedules its first tick; and completing the final row of
the active job marks it `completed`, frees the active slot and schedules
the `processQueue` tick that dequeues the next queued job. -/
theorem queue_single_flight {ProdVal : Type}
    (oracle : CsvUploadType → ParsedRow ProdVal → Option Str)
    (upsert : ProdVal → List ProdVal → List ProdVal) :
    (∀ s : ServerState ProdVal, Reaches oracle upsert initState s →
      (∀ id1 j1 id2 j2, alookup s.jobStore id1 = some j1 →
        alookup s.jobStore id2 = some j2 → j1.status = .processing →
        j2.status = .processing → id1 = id2)
      ∧ (∀ id ∈ s.jobQueue, ∃ j, alookup s.jobStore id = some j ∧ j.status = .pending))
    ∧ (∀ jobId ty entry (now : ℕ),
        (@mkJob ProdVal jobId ty entry now).status = .pending)
    ∧ (∀ (now : ℕ) (s : ServerState ProdVal), s.activeJob ≠ none → processQueue now s = s)
    ∧ (∀ (now : ℕ) (s : ServerState ProdVal) id rest j, s.activeJob = none →
        s.jobQueue = id :: rest → alookup s.jobStore id = some j →
        processQueue now s =
          { s with jobQueue := rest
                   activeJob := some id
                   jobStore := aset s.jobStore id
                     { j with status := .processing, updatedAt := now }
                   tasks := s.tasks ++ [.processNextTask id 0] })
    ∧ (∀ (now i : ℕ) (s : ServerState ProdVal) id j, s.activeJob = some id →
        alookup s.jobStore id = some j → j.rows.length ≤ i →
        runProcessNext oracle upsert now id i s =
          { s with jobStore := aset s.jobStore id
                     { j with status := .completed, updatedAt := now }
                   activeJob := none
                   tasks := s.tasks ++ [.processQueueTask] }) := by
  refine ⟨?_, fun jobId ty entry now => rfl, ?_, ?_, ?_⟩
  · intro s hr
    obtain ⟨hI1, hI2, hI3, hI4, hI5, hI6, hI7⟩ :=
      reaches_inv oracle upsert hr (QueueInv_initState oracle)
    refine ⟨?_, hI2⟩
    intro id1 j1 id2 j2 hlk1 hlk2 hs1 hs2
    have h1 := hI3 id1 j1 hlk1 hs1
    have h2 := hI3 id2 j2 hlk2 hs2
    rw [h1] at h2
    exact Option.some.inj h2
  · intro now s h
    rcases hact : s.activeJob with _ | a
    · exact absurd hact h
    · simp only [processQueue, hact]
  · intro now s id rest j h1 h2 h3
    simp only [processQueue, h1, h2, h3]
  · intro now i s id j h1 h2 hle
    simp only [runProcessNext, h1, h2, hle, ne_eq, not_true_eq_false, if_false,
      if_true, ite_true, ite_false]

/-- Closed instance of `queue_single_flight`: a commit produces a pending
job; `processQueue` leaves the two-commit state (first job active)
untouched; on the idle one-job state it dequeues the head; ticking past the
last row completes the active job and frees the slot; and in the reachable
two-commit state the second job is stored `pending`. -/
theorem queue_single_flight_witness :
    (@mkJob Unit (S "jw") CsvUploadType.products sampleEntry 0).status =
      JobStatus.pending
    ∧ processQueue 7 sCommit2 = sCommit2
    ∧ processQueue 7 sampleIdle =
        { sampleIdle with
            jobQueue := []
            activeJob := some (S "j1")
            jobStore := aset sampleIdle.jobStore (S "j1")
              { sampleJob with status := .processing, updatedAt := 7 }
            tasks := sampleIdle.tasks ++ [QTask.processNextTask (S "j1") 0] }
    ∧ runProcessNext oracle0 upsert0 9 (S "j2") 1 sampleActive =
        { sampleActive with
            jobStore := aset sampleActive.jobStore (S "j2")
              { sampleJob2 with status := .completed, updatedAt := 9 }
            activeJob := none
            tasks := sampleActive.tasks ++ [QTask.processQueueTask] }
    ∧ (alookup sCommit2.jobStore (S "j2")).map (fun jb => jb.status) =
        some JobStatus.pending := by
  refine ⟨(queue_single_flight oracle0 upsert0).2.1 (S "jw") .products sampleEntry 0,
    (queue_single_flight oracle0 upsert0).2.2.1 7 sCommit2 (by decide),
    (queue_single_flight oracle0 upsert0).2.2.2.1 7 sampleIdle (S "j1") [] sampleJob
      rfl rfl (by decide),
    (queue_single_flight oracle0 upsert0).2.2.2.2 9 1 sampleActive (S "j2") sampleJob2
      rfl (by decide) (by decide),
    ?_⟩
  obtain ⟨j, hj, hp⟩ :=
    ((queue_single_flight oracle0 upsert0).1 sCommit2 reach_two_commits).2 (S "j2")
      (by decide)
  rw [hj]
  simpa using hp

/-- C4: a thrown apply error is caught and isolated. When the processor
ticks row `i` of the active job and the apply step throws (`oracle`
returns a message), the step appends exactly one entry to `job.errors` —
the row itself keeping its original `raw` cells, with `action := error`
and the single thrown message — leaves the stores untouched, keeps the
job's status, and schedules the next tick, so the loop continues. `mkJob`
seeds `job.errors` at commit time with exactly the preview's error rows,
and in every reachable state every stored job has status ≠ `failed` with
`errors` equal to those seeded preview error rows followed by the runtime
failures of the processed prefix; rows flagged `error` in preview are
never handed to the apply step (every `applied` log entry is a non-error
row with a payload). -/
theorem apply_failure_isolation {ProdVal : Type}
    (oracle : CsvUploadType → ParsedRow ProdVal → Option Str)
    (upsert : ProdVal → List ProdVal → List ProdVal) :
    (∀ (now i : ℕ) (s : ServerState ProdVal) id j row msg,
        s.activeJob = some id → alookup s.jobStore id = some j →
        ¬ j.rows.length ≤ i → j.rows[i]? = some row →
        row.action ≠ .error ∧ row.payload.isSome = true →
        oracle j.type row = some msg →
        runProcessNext oracle upsert now id i s =
          { s with
              jobStore := aset s.jobStore id
                { j with
                    errors := j.errors ++
                      [{ row with action := .error, messages := some [msg] }]
                    processed := i + 1, updatedAt := now }
              applied := s.applied ++ [(j.type, row)]
              tasks := s.tasks ++ [.processNextTask id (i + 1)] })
    ∧ (∀ jobId ty entry (now : ℕ),
        (@mkJob ProdVal jobId ty entry now).errors =
          entry.rows.filter (fun r => r.action == .error))
    ∧ (∀ s : ServerState ProdVal, Reaches oracle upsert initState s →
        (∀ id j, alookup s.jobStore id = some j →
          j.status ≠ .failed
          ∧ j.errors = j.rows.filter (fun r => r.action == .error)
              ++ runtimeFailures oracle j.type (j.rows.take j.processed)
          ∧ (j.status = .completed → j.processed = j.rows.length))
        ∧ (∀ e ∈ s.applied, e.2.action ≠ .error ∧ e.2.payload.isSome = true)) := by
  refine ⟨?_, fun jobId ty entry now => rfl, ?_⟩
  · intro now i s id j row msg h1 h2 hle hrow hc horacle
    simp only [runProcessNext, h1, h2, hle, hrow, hc, horacle, ne_eq,
      not_true_eq_false, not_false_eq_true, and_self, if_false, if_true,
      ite_true, ite_false]
  · intro s hr
    obtain ⟨hI1, hI2, hI3, hI4, hI5, hI6, hI7⟩ :=
      reaches_inv oracle upsert hr (QueueInv_initState oracle)
    refine ⟨?_, hI6⟩
    intro id j hlk
    obtain ⟨hjid, hjinv⟩ := hI1 id j hlk
    exact ⟨hjinv.2.2.2.1, hjinv.2.2.1, hjinv.2.2.2.2.2⟩

/-- Closed instance of `apply_failure_isolation`: under an oracle that
throws on every row, ticking the first row of the active sample job
records exactly one extra error entry (the row's raw cells, one message)
and schedules the next tick; `mkJob` seeds no errors from an all-clean
preview; and in the reachable two-commit state the first job's stored
`errors` satisfy the seeded-plus-runtime formula. -/
theorem apply_failure_isolation_witness :
    runProcessNext oracleF upsert0 5 (S "j2") 0 sampleProcessing =
      { sampleProcessing with
          jobStore := aset sampleProcessing.jobStore (S "j2")
            { sampleJob2 with
                errors := sampleJob2.errors ++
                  [{ sampleRow with action := .error, messages := some [S "DB down"] }]
                processed := 1, updatedAt := 5 }
          applied := sampleProcessing.applied ++ [(sampleJob2.type, sampleRow)]
          tasks := sampleProcessing.tasks ++ [QTask.processNextTask (S "j2") 1] }
    ∧ (@mkJob Unit (S "jw2") CsvUploadType.movements sampleEntry 3).errors = []
    ∧ sampleJ1After.errors =
        sampleJ1After.rows.filter (fun r => r.action == CsvRowAction.error)
          ++ runtimeFailures oracle0 sampleJ1After.type
               (sampleJ1After.rows.take sampleJ1After.processed) := by
  refine ⟨(apply_failure_isolation oracleF upsert0).1 5 0 sampleProcessing (S "j2")
      sampleJob2 sampleRow (S "DB down") rfl (by decide) (by decide) (by decide)
      ⟨by decide, rfl⟩ rfl,
    ((apply_failure_isolation oracleF upsert0).2.1 (S "jw2") .movements sampleEntry 3).trans
      (by decide),
    (((apply_failure_isolation oracle0 upsert0).2.2 sCommit2 reach_two_commits).1
      (S "j1") sampleJ1After (by decide)).2.1⟩
